import Mathlib

/-!
# SimplisticFSM: the state-transition core

A shallow embedding of `simplistic::fsm::Context` (`include/simplistic/fsm.h`).

* A state instance is a value of an arbitrary type `σ`; two values are equal exactly
  when they denote the same instance.
* A `std::unique_ptr<IState>` slot is an `Option σ`: `none` is the null pointer.
* The virtual call `mCurrent->Handle(this)` is given by a behaviour table
  `proc : σ → List (Request σ)`: the calls of `ctx->SetState(..)` the state makes on the
  context it is handed, in program order.
* `Context::Handle` returns, next to the new context, the list of states whose `Handle`
  it invoked.

The build without `SFSM_MT` is `Context`; the build with it is `MTContext`, which adds the
mutex as a flag and a trace of lock, unlock and invocation events. The classes of
`examples/semaphore.cpp` and `examples/lexer.cpp` are embedded as `Light`, `Tokenizer` and
`Lexer`.
-/

namespace simplistic.fsm

/-- One call `ctx->SetState(newState, bImmidiateOverride)`. -/
structure Request (σ : Type) where
  newState : Option σ
  bImmidiateOverride : Bool
deriving DecidableEq

/-- The two owning slots of `Context` (fsm.h:61-62). -/
structure Context (σ : Type) where
  mCurrent : Option σ
  mQueuedNext : Option σ
deriving DecidableEq

namespace Context

variable {σ : Type}

/-- The constructor `Context() = default` (fsm.h:25): both pointers are null. -/
def new : Context σ :=
  ⟨none, none⟩

/-- The constructor `Context(std::unique_ptr<IState> initialState)` (fsm.h:26-28). -/
def init (initialState : Option σ) : Context σ :=
  ⟨initialState, none⟩

/-- The method `Context::SetState` (fsm.h:30-37):
`dst = bImmidiateOverride ? mCurrent : mQueuedNext; dst = std::move(newState)`. -/
def SetState (c : Context σ) (newState : Option σ) (bImmidiateOverride : Bool) : Context σ :=
  if bImmidiateOverride then ⟨newState, c.mQueuedNext⟩ else ⟨c.mCurrent, newState⟩

/-- The method `Context::FlushQueue` (fsm.h:47-59): return early on a null `mQueuedNext`,
otherwise move it into `mCurrent` and reset it. -/
def FlushQueue (c : Context σ) : Context σ :=
  match c.mQueuedNext with
  | none => c
  | some s => ⟨some s, none⟩

/-- The effect on the context of the body of a state's `Handle`: its `SetState` calls,
applied left to right. -/
def runRequests (c : Context σ) (rs : List (Request σ)) : Context σ :=
  rs.foldl (fun acc r => acc.SetState r.newState r.bImmidiateOverride) c

/-- The method `Context::Handle` (fsm.h:39-45): flush, then `if (mCurrent) mCurrent->Handle(this)`.
The second component lists the states whose `Handle` was invoked by this call. -/
def Handle (proc : σ → List (Request σ)) (c : Context σ) : Context σ × List σ :=
  match c.FlushQueue.mCurrent with
  | none => (c.FlushQueue, [])
  | some s => (c.FlushQueue.runRequests (proc s), [s])

/-- The loop body `ctx.Handle()` executed `n` times in a row; the invocation lists are
concatenated in order. -/
def HandleN (proc : σ → List (Request σ)) : Nat → Context σ → Context σ × List σ
  | 0, c => (c, [])
  | n + 1, c =>
    ((HandleN proc n (c.Handle proc).1).1, (c.Handle proc).2 ++ (HandleN proc n (c.Handle proc).1).2)

end Context

/-- A non-immediate request for the state `s`: `ctx->SetState(std::make_unique<S>())`. -/
def deferred {σ : Type} (s : σ) : Request σ :=
  ⟨some s, false⟩

/-! ## The traffic-light example (`examples/semaphore.cpp`) -/

/-- The three state classes of `examples/semaphore.cpp`. -/
inductive Light where
  | RedLightState
  | GreenLightState
  | OrangeLightState
deriving DecidableEq

/-- The `Handle` bodies of `examples/semaphore.cpp` (lines 27-46), reduced to their
`SetState` calls. -/
def Light.Handle : Light → List (Request Light)
  | .GreenLightState => [⟨some .OrangeLightState, false⟩]
  | .OrangeLightState => [⟨some .RedLightState, false⟩]
  | .RedLightState => [⟨some .GreenLightState, false⟩]

/-! ## Call sequences and instance identities -/

/-- A call of one of the three public methods of `Context` (fsm.h:30, 39, 47). -/
inductive Call (σ : Type) where
  | SetState (newState : Option σ) (bImmidiateOverride : Bool)
  | FlushQueue
  | Handle

namespace Call

variable {σ : Type}

/-- The context after the call, and the states whose `Handle` the call invoked. -/
def exec (proc : σ → List (Request σ)) (c : Context σ) : Call σ → Context σ × List σ
  | .SetState x b => (c.SetState x b, [])
  | .FlushQueue => (c.FlushQueue, [])
  | .Handle => c.Handle proc

/-- The state instances handed to `SetState` in the course of the call: the argument of
the call itself, or the arguments of the requests made by the state a `Handle()`
invokes. -/
def passed (proc : σ → List (Request σ)) (c : Context σ) : Call σ → List σ
  | .SetState x _ => x.toList
  | .FlushQueue => []
  | .Handle =>
    match c.FlushQueue.mCurrent with
    | none => []
    | some s => (proc s).filterMap Request.newState

end Call

namespace Context

variable {σ : Type}

/-- The contexts seen after each of the requests `rs`, in order. -/
def requestPoints (c : Context σ) : List (Request σ) → List (Context σ)
  | [] => []
  | r :: rs =>
    c.SetState r.newState r.bImmidiateOverride
      :: requestPoints (c.SetState r.newState r.bImmidiateOverride) rs

/-- A sequence of calls, executed in order; the invocation lists are concatenated. -/
def runCalls (proc : σ → List (Request σ)) : Context σ → List (Call σ) → Context σ × List σ
  | c, [] => (c, [])
  | c, k :: ks =>
    ((runCalls proc (k.exec proc c).1 ks).1,
      (k.exec proc c).2 ++ (runCalls proc (k.exec proc c).1 ks).2)

/-- The state instances handed to `SetState` in the course of a sequence of calls. -/
def passedBy (proc : σ → List (Request σ)) : Context σ → List (Call σ) → List σ
  | _, [] => []
  | c, k :: ks => k.passed proc c ++ passedBy proc (k.exec proc c).1 ks

/-- The slots hold instances out of `used` only, and not the same instance twice. -/
def OwnsFrom (used : List σ) (c : Context σ) : Prop :=
  (∀ s, c.mCurrent = some s → s ∈ used)
  ∧ (∀ s, c.mQueuedNext = some s → s ∈ used)
  ∧ (∀ s, c.mCurrent = some s → c.mQueuedNext ≠ some s)

end Context

/-- The contexts a call passes through: after an outside `SetState` or `FlushQueue`, the
result; inside a `Handle()`, the context after the flush and after each request of the
invoked state. -/
def Call.points {σ : Type} (proc : σ → List (Request σ)) (c : Context σ) :
    Call σ → List (Context σ)
  | .SetState x b => [c.SetState x b]
  | .FlushQueue => [c.FlushQueue]
  | .Handle =>
    match c.FlushQueue.mCurrent with
    | none => [c.FlushQueue]
    | some s => c.FlushQueue :: c.FlushQueue.requestPoints (proc s)

/-- Every context a sequence of calls passes through after its start, in order. -/
def Context.visitedAfter {σ : Type} (proc : σ → List (Request σ)) :
    Context σ → List (Call σ) → List (Context σ)
  | _, [] => []
  | c, k :: ks => k.points proc c ++ visitedAfter proc (k.exec proc c).1 ks

/-! ## The build with `SFSM_MT`

`mQueueMutex` is a flag, `true` while the mutex is held. A `std::lock_guard` is a `lock` at
its declaration and an `unlock` at the end of the enclosing function. Locking a held
`std::mutex` from the thread that holds it never returns; the operations then yield
`none`. The `trace` records, in order, each lock, each unlock and each invocation of a
state, the last with the value of the flag at that moment. -/

/-- What a call on a context of the `SFSM_MT` build does to the mutex and to states. -/
inductive Event (σ : Type) where
  | lock
  | unlock
  | invoke (s : σ) (held : Bool)
deriving DecidableEq

/-- The state of an invocation event, if it is one. -/
def Event.invoked {σ : Type} : Event σ → Option σ
  | .invoke s _ => some s
  | _ => none

/-- The class `Context` compiled with `SFSM_MT` (fsm.h:61-65), with the event trace. -/
structure MTContext (σ : Type) where
  mCurrent : Option σ
  mQueuedNext : Option σ
  mQueueMutex : Bool
  trace : List (Event σ)
deriving DecidableEq

namespace MTContext

variable {σ : Type}

/-- A context of the `SFSM_MT` build holding the slots of `c`, its mutex free. -/
def ofContext (c : Context σ) (trace : List (Event σ)) : MTContext σ :=
  ⟨c.mCurrent, c.mQueuedNext, false, trace⟩

/-- The two slots. -/
def toContext (m : MTContext σ) : Context σ :=
  ⟨m.mCurrent, m.mQueuedNext⟩

/-- The constructor of `std::lock_guard<std::mutex> queueLock(mQueueMutex)`. -/
def lock (m : MTContext σ) : Option (MTContext σ) :=
  if m.mQueueMutex then none
  else some ⟨m.mCurrent, m.mQueuedNext, true, m.trace ++ [Event.lock]⟩

/-- The destructor of the `std::lock_guard`. -/
def unlock (m : MTContext σ) : MTContext σ :=
  ⟨m.mCurrent, m.mQueuedNext, false, m.trace ++ [Event.unlock]⟩

/-- The method `Context::SetState` with `SFSM_MT` (fsm.h:30-37): the guard is taken first,
whatever `bImmidiateOverride` is. -/
def SetState (m : MTContext σ) (newState : Option σ) (bImmidiateOverride : Bool) :
    Option (MTContext σ) :=
  match m.lock with
  | none => none
  | some m1 =>
    if bImmidiateOverride then
      some (unlock ⟨newState, m1.mQueuedNext, m1.mQueueMutex, m1.trace⟩)
    else
      some (unlock ⟨m1.mCurrent, newState, m1.mQueueMutex, m1.trace⟩)

/-- The method `Context::FlushQueue` with `SFSM_MT` (fsm.h:47-59). -/
def FlushQueue (m : MTContext σ) : Option (MTContext σ) :=
  match m.lock with
  | none => none
  | some m1 =>
    match m1.mQueuedNext with
    | none => some (unlock m1)
    | some s => some (unlock ⟨some s, none, m1.mQueueMutex, m1.trace⟩)

/-- The `SetState` calls of the body of a state's `Handle`, in order. -/
def runRequests (m : MTContext σ) : List (Request σ) → Option (MTContext σ)
  | [] => some m
  | r :: rs =>
    match m.SetState r.newState r.bImmidiateOverride with
    | none => none
    | some m1 => runRequests m1 rs

/-- The method `Context::Handle` with `SFSM_MT` (fsm.h:39-45). -/
def Handle (proc : σ → List (Request σ)) (m : MTContext σ) : Option (MTContext σ) :=
  match m.FlushQueue with
  | none => none
  | some m1 =>
    match m1.mCurrent with
    | none => some m1
    | some s =>
      runRequests
        ⟨m1.mCurrent, m1.mQueuedNext, m1.mQueueMutex,
          m1.trace ++ [Event.invoke s m1.mQueueMutex]⟩ (proc s)

/-- One call of a public method on the `SFSM_MT` build. -/
def exec (proc : σ → List (Request σ)) (m : MTContext σ) : Call σ → Option (MTContext σ)
  | .SetState x b => m.SetState x b
  | .FlushQueue => m.FlushQueue
  | .Handle => m.Handle proc

/-- A sequence of calls on the `SFSM_MT` build, made one after the other. -/
def runCalls (proc : σ → List (Request σ)) : MTContext σ → List (Call σ) → Option (MTContext σ)
  | m, [] => some m
  | m, k :: ks =>
    match m.exec proc k with
    | none => none
    | some m1 => runCalls proc m1 ks

end MTContext

end simplistic.fsm

/-! ## The example of `examples/lexer.cpp`

A `std::string` is a `String`; each `Char` stands for one `char`. Output to `std::cout`
and `std::cerr` is left out. -/

/-- The set `keywords` (lexer.cpp:10-13). -/
def keywords : List String :=
  ["SET", "PRINT"]

namespace Tokenizer

/-- The C library function `isalpha` in the "C" locale. -/
def isalpha (ch : Char) : Bool :=
  ch.isAlpha

/-- The C library function `isdigit`. -/
def isdigit (ch : Char) : Bool :=
  ch.isDigit

/-- The C library function `isalnum` in the "C" locale. -/
def isalnum (ch : Char) : Bool :=
  ch.isAlpha || ch.isDigit

/-- The C library function `isspace` in the "C" locale: space, and `\t \n \v \f \r`. -/
def isspace (ch : Char) : Bool :=
  ch.toNat = 32 || (9 ≤ ch.toNat && ch.toNat ≤ 13)

/-- The state classes of the tokenizer (lexer.cpp:41-67). -/
inductive State where
  | InitialState
  | TokenState (mToken : String)
  | NumberState (mNumber : String)
deriving DecidableEq

/-- The invariant of `TokenState::mToken`: a letter followed by letters and digits. -/
def isWord (v : String) : Prop :=
  ∃ c cs, v.data = c :: cs ∧ isalpha c = true ∧ ∀ d ∈ cs, isalnum d = true

/-- The invariant of `NumberState::mNumber`: one or more decimal digits. -/
def isNumber (v : String) : Prop :=
  v.data ≠ [] ∧ ∀ c ∈ v.data, isdigit c = true

/-- The shape of an emitted token. -/
def tokenOk (t : String × String) : Prop :=
  t = ("OPERATOR", "=") ∨ t = ("DELIMITER", ";")
  ∨ (t.1 = "NUMBER" ∧ isNumber t.2)
  ∨ ((t.1 = "KEYWORD" ∨ t.1 = "IDENTIFIER") ∧ isWord t.2
      ∧ (t.1 = "KEYWORD" ↔ (t.2 = "SET" ∨ t.2 = "PRINT")))

/-- The invariant of a state object. -/
def State.ok : State → Prop
  | State.InitialState => True
  | State.TokenState mToken => isWord mToken
  | State.NumberState mNumber => isNumber mNumber

/-- The class `Tokenizer::Context` (lexer.cpp:22-38): the base class `::Context` and the
members `mTokens`, `mInput`, `mPos`. -/
structure Context where
  toContext : simplistic.fsm.Context State
  mTokens : List (String × String)
  mInput : String
  mPos : Nat
deriving DecidableEq

/-- The invariant of the tokenizer: the states in both slots and the tokens emitted so far
are well formed. -/
def Context.ok (ctx : Context) : Prop :=
  (∀ s, ctx.toContext.mCurrent = some s → s.ok)
  ∧ (∀ s, ctx.toContext.mQueuedNext = some s → s.ok)
  ∧ (∀ t ∈ ctx.mTokens, tokenOk t)

namespace Context

/-- The constructor `Context(const std::string& input)` (lexer.cpp:69-70). -/
def init (input : String) : Context :=
  ⟨simplistic.fsm.Context.init (some State.InitialState), [], input, 0⟩

/-- The inherited method `SetState`. -/
def SetState (ctx : Context) (newState : Option State) (bImmidiateOverride : Bool) : Context :=
  ⟨ctx.toContext.SetState newState bImmidiateOverride, ctx.mTokens, ctx.mInput, ctx.mPos⟩

/-- The method `Finished` (lexer.cpp:72-75): `(mPos < mInput.size()) == false`. -/
def Finished (ctx : Context) : Bool :=
  decide (ctx.mPos < ctx.mInput.data.length) == false

/-- The method `GetNextChar` (lexer.cpp:77-82): the character read, `\0` at the end of the
input, and the context with `mPos` advanced. -/
def GetNextChar (ctx : Context) : Char × Context :=
  if ctx.mPos < ctx.mInput.data.length then
    (ctx.mInput.data.getD ctx.mPos (Char.ofNat 0),
      ⟨ctx.toContext, ctx.mTokens, ctx.mInput, ctx.mPos + 1⟩)
  else
    (Char.ofNat 0, ctx)

/-- The method `EmitToken` (lexer.cpp:84-86). -/
def EmitToken (ctx : Context) (tokenType : String) (value : String) : Context :=
  ⟨ctx.toContext, ctx.mTokens ++ [(tokenType, value)], ctx.mInput, ctx.mPos⟩

/-- The method `RevertOneChar` (lexer.cpp:88-92). -/
def RevertOneChar (ctx : Context) : Context :=
  if ctx.mPos > 0 then ⟨ctx.toContext, ctx.mTokens, ctx.mInput, ctx.mPos - 1⟩ else ctx

/-- The method `Finalize` (lexer.cpp:169-171), which is empty. -/
def Finalize (ctx : Context) : Context :=
  ctx

/-- An assignment to a member of the running state object inside its own `Handle`
(lexer.cpp:138 `mToken += ch`, lexer.cpp:154 `mNumber += ch`): the object is the one
`mCurrent` owns, and `self` is its value after the assignment. -/
def assignSelf (ctx : Context) (self : State) : Context :=
  ⟨⟨ctx.toContext.mCurrent.map (fun _ => self), ctx.toContext.mQueuedNext⟩,
    ctx.mTokens, ctx.mInput, ctx.mPos⟩

end Context

namespace State

/-- The method `InitialState::OnFinishDetected` (lexer.cpp:126-130). -/
def OnFinishDetected (ctx : Context) : Context :=
  ctx.Finalize.SetState none false

/-- The part of `InitialState::Handle` after `GetNextChar` (lexer.cpp:100-123). -/
def dispatchChar (ch : Char) (ctx : Context) : Context :=
  if isalpha ch then
    ctx.SetState (some (TokenState (String.singleton ch))) false
  else if isdigit ch then
    ctx.SetState (some (NumberState (String.singleton ch))) false
  else if ch = '=' then
    (ctx.EmitToken "OPERATOR" (String.singleton ch)).SetState (some InitialState) false
  else if ch = ';' then
    (ctx.EmitToken "DELIMITER" (String.singleton ch)).SetState (some InitialState) false
  else if isspace ch then
    ctx.SetState (some InitialState) false
  else if ch = Char.ofNat 0 then
    OnFinishDetected ctx
  else
    ctx

/-- The methods `InitialState::Handle` (lexer.cpp:94-124), `TokenState::Handle`
(lexer.cpp:134-146) and `NumberState::Handle` (lexer.cpp:150-162). -/
def Handle : State → Context → Context
  | InitialState, ctx =>
    dispatchChar
      (if ctx.Finished then OnFinishDetected ctx else ctx).GetNextChar.1
      (if ctx.Finished then OnFinishDetected ctx else ctx).GetNextChar.2
  | TokenState mToken, ctx =>
    if isalnum ctx.GetNextChar.1 then
      (ctx.GetNextChar.2.assignSelf (TokenState (mToken.push ctx.GetNextChar.1))).SetState
        (some (TokenState (mToken.push ctx.GetNextChar.1))) false
    else
      ((ctx.GetNextChar.2.RevertOneChar.EmitToken
        (if mToken ∈ keywords then "KEYWORD" else "IDENTIFIER") mToken).SetState
        (some InitialState) false)
  | NumberState mNumber, ctx =>
    if isdigit ctx.GetNextChar.1 then
      (ctx.GetNextChar.2.assignSelf (NumberState (mNumber.push ctx.GetNextChar.1))).SetState
        (some (NumberState (mNumber.push ctx.GetNextChar.1))) false
    else
      ((ctx.GetNextChar.2.RevertOneChar.EmitToken "NUMBER" mNumber).SetState
        (some InitialState) false)

end State

namespace Context

/-- The inherited method `FlushQueue`. -/
def FlushQueue (ctx : Context) : Context :=
  ⟨ctx.toContext.FlushQueue, ctx.mTokens, ctx.mInput, ctx.mPos⟩

/-- The inherited method `Handle` (fsm.h:39-45): flush, then
`if (mCurrent) mCurrent->Handle(this)`. -/
def Handle (ctx : Context) : Context :=
  match ctx.FlushQueue.toContext.mCurrent with
  | none => ctx.FlushQueue
  | some s => s.Handle ctx.FlushQueue

/-- The loop `while (!tknzrCtx.Finished()) tknzrCtx.Handle();` (lexer.cpp:413-414), cut
off after `fuel` iterations; the second component counts the calls of `Handle`. -/
def run : Nat → Context → Context × Nat
  | 0, ctx => (ctx, 0)
  | fuel + 1, ctx =>
    if ctx.Finished then (ctx, 0)
    else ((run fuel ctx.Handle).1, (run fuel ctx.Handle).2 + 1)

/-- A bound on the number of iterations the loop of `run` still makes: none when the
input is finished; otherwise two for each character left, less one when the state the
next step runs is `InitialState`, which always consumes a character. -/
def budget (ctx : Context) : Nat :=
  if ctx.Finished then 0
  else
    2 * (ctx.mInput.data.length - ctx.mPos)
      - (if ctx.toContext.FlushQueue.mCurrent = some State.InitialState then 1 else 0)

end Context

end Tokenizer

namespace Lexer

/-- The state classes of the parser (lexer.cpp:192-237). The closure `mOnPass` of
`IdentifierState` and `OperatorState` has the body
`lexerCtx->SetState(std::make_unique<S>(..))` at each of its three places of creation
(lexer.cpp:245-248, 262-264); it is held as the state `S` it queues. -/
inductive State where
  | ControllerState
  | KeywordState
  | SetState
  | PrintState
  | IdentifierState (mOnPass : State)
  | OperatorState (mOnPass : State)
  | LiteralState
  | DelimiterState
  | ErrorState
deriving DecidableEq

/-- The class `Lexer::Context` (lexer.cpp:175-190): the base class `::Context` and the
members `mTokens`, `mCurrentTokenIndex`. -/
structure Context where
  toContext : simplistic.fsm.Context State
  mTokens : List (String × String)
  mCurrentTokenIndex : Nat
deriving DecidableEq

namespace Context

/-- The constructor `Context(std::vector<Token> tokens)` (lexer.cpp:327-330). -/
def init (tokens : List (String × String)) : Context :=
  ⟨simplistic.fsm.Context.init (some State.KeywordState), tokens, 0⟩

/-- The inherited method `SetState`. -/
def SetState (ctx : Context) (newState : Option State) (bImmidiateOverride : Bool) : Context :=
  ⟨ctx.toContext.SetState newState bImmidiateOverride, ctx.mTokens, ctx.mCurrentTokenIndex⟩

/-- The method `GetCurrentToken` (lexer.cpp:331-336). -/
def GetCurrentToken (ctx : Context) : String × String :=
  if ctx.mCurrentTokenIndex < ctx.mTokens.length then
    ctx.mTokens.getD ctx.mCurrentTokenIndex ("", "")
  else ("", "")

/-- The method `AdvanceToken` (lexer.cpp:338-342). -/
def AdvanceToken (ctx : Context) : Context :=
  if ctx.mCurrentTokenIndex < ctx.mTokens.length then
    ⟨ctx.toContext, ctx.mTokens, ctx.mCurrentTokenIndex + 1⟩
  else ctx

/-- The method `IsEndOfTokens` (lexer.cpp:344-346). -/
def IsEndOfTokens (ctx : Context) : Bool :=
  decide (ctx.mCurrentTokenIndex ≥ ctx.mTokens.length)

end Context

/-- The `Handle` methods of the parser's states (lexer.cpp:239-325, 350-397). -/
def State.Handle : State → Context → Context
  | .SetState, ctx =>
    if ctx.GetCurrentToken.2 = "SET" then
      ctx.AdvanceToken.SetState
        (some (.IdentifierState (.OperatorState .LiteralState))) false
    else ctx.SetState (some .ErrorState) false
  | .PrintState, ctx =>
    if ctx.GetCurrentToken.2 = "PRINT" then
      ctx.AdvanceToken.SetState (some (.IdentifierState .DelimiterState)) false
    else ctx.SetState (some .ErrorState) false
  | .IdentifierState mOnPass, ctx =>
    if ctx.GetCurrentToken.1 = "IDENTIFIER" then
      ctx.AdvanceToken.SetState (some mOnPass) false
    else ctx.SetState (some .ErrorState) false
  | .LiteralState, ctx =>
    if ctx.GetCurrentToken.1 = "NUMBER" ∨ ctx.GetCurrentToken.1 = "LITERAL" then
      ctx.AdvanceToken.SetState (some .DelimiterState) false
    else ctx.SetState (some .ErrorState) false
  | .DelimiterState, ctx =>
    if ctx.GetCurrentToken.1 = "DELIMITER" then
      if ctx.AdvanceToken.IsEndOfTokens then ctx.AdvanceToken.SetState none false
      else ctx.AdvanceToken.SetState (some .ControllerState) false
    else ctx.SetState (some .ErrorState) false
  | .ErrorState, ctx => ctx.SetState none true
  | .ControllerState, ctx =>
    if ctx.GetCurrentToken.1 = "KEYWORD" then ctx.SetState (some .KeywordState) false
    else ctx.SetState (some .ErrorState) false
  | .KeywordState, ctx =>
    if ctx.GetCurrentToken.2 ∈ keywords then
      if ctx.GetCurrentToken.2 = "SET" then ctx.SetState (some .SetState) false
      else if ctx.GetCurrentToken.2 = "PRINT" then ctx.SetState (some .PrintState) false
      else ctx.SetState (some .ErrorState) false
    else ctx.SetState (some .ErrorState) false
  | .OperatorState mOnPass, ctx =>
    if ctx.GetCurrentToken.1 = "OPERATOR" then
      ctx.AdvanceToken.SetState (some mOnPass) false
    else ctx.SetState (some .ErrorState) false

namespace Context

/-- The inherited method `Handle` (fsm.h:39-45); the second component lists the states
whose `Handle` was invoked. -/
def Handle (ctx : Context) : Context × List State :=
  match ctx.toContext.FlushQueue.mCurrent with
  | none => (⟨ctx.toContext.FlushQueue, ctx.mTokens, ctx.mCurrentTokenIndex⟩, [])
  | some s => (s.Handle ⟨ctx.toContext.FlushQueue, ctx.mTokens, ctx.mCurrentTokenIndex⟩, [s])

/-- The loop `while (lxrCtx.mCurrent && !lxrCtx.IsEndOfTokens()) lxrCtx.Handle();`
(lexer.cpp:419-420), cut off after `fuel` iterations; the second component lists the
states invoked, in order. -/
def run : Nat → Context → Context × List State
  | 0, ctx => (ctx, [])
  | fuel + 1, ctx =>
    if ctx.toContext.mCurrent.isSome && !ctx.IsEndOfTokens then
      ((run fuel ctx.Handle.1).1, ctx.Handle.2 ++ (run fuel ctx.Handle.1).2)
    else (ctx, [])

end Context

end Lexer

namespace simplistic.fsm

/-! ## Basic facts about the operations -/

namespace Context

variable {σ : Type}

theorem SetState_deferred (c : Context σ) (x : Option σ) :
    c.SetState x false = ⟨c.mCurrent, x⟩ := by
  simp [SetState]

theorem SetState_immediate (c : Context σ) (x : Option σ) :
    c.SetState x true = ⟨x, c.mQueuedNext⟩ := by
  simp [SetState]

theorem FlushQueue_none (c : Context σ) (h : c.mQueuedNext = none) : c.FlushQueue = c := by
  simp [FlushQueue, h]

theorem FlushQueue_some (c : Context σ) (p : σ) (h : c.mQueuedNext = some p) :
    c.FlushQueue = ⟨some p, none⟩ := by
  simp [FlushQueue, h]

theorem FlushQueue_mQueuedNext (c : Context σ) : c.FlushQueue.mQueuedNext = none := by
  cases h : c.mQueuedNext with
  | none => rw [FlushQueue_none c h, h]
  | some p => rw [FlushQueue_some c p h]

theorem runRequests_nil (c : Context σ) : c.runRequests [] = c := rfl

theorem runRequests_cons (c : Context σ) (r : Request σ) (rs : List (Request σ)) :
    c.runRequests (r :: rs) = (c.SetState r.newState r.bImmidiateOverride).runRequests rs := rfl

theorem runRequests_append (c : Context σ) (rs ts : List (Request σ)) :
    c.runRequests (rs ++ ts) = (c.runRequests rs).runRequests ts := by
  simp [runRequests, List.foldl_append]

theorem Handle_of_active (proc : σ → List (Request σ)) (c : Context σ) (s : σ)
    (h : c.FlushQueue.mCurrent = some s) :
    c.Handle proc = (c.FlushQueue.runRequests (proc s), [s]) := by
  simp [Handle, h]

theorem Handle_of_halted (proc : σ → List (Request σ)) (c : Context σ)
    (h : c.FlushQueue.mCurrent = none) :
    c.Handle proc = (c.FlushQueue, []) := by
  simp [Handle, h]

/-- A request made with `bImmidiateOverride = false` never touches `mCurrent`. -/
theorem runRequests_mCurrent_of_deferred (rs : List (Request σ)) :
    ∀ c : Context σ, (∀ r ∈ rs, r.bImmidiateOverride = false) →
      (c.runRequests rs).mCurrent = c.mCurrent := by
  induction rs with
  | nil => intro c _; rfl
  | cons r rs ih =>
    intro c h
    have hr : r.bImmidiateOverride = false := h r (List.mem_cons_self r rs)
    rw [runRequests_cons, ih _ (fun t ht => h t (List.mem_cons_of_mem r ht)), hr,
      SetState_deferred]

/-- After a run of non-immediate requests the pending slot holds the argument of the last
one; an empty run leaves it as it was. -/
theorem runRequests_mQueuedNext_of_deferred (rs : List (Request σ)) :
    ∀ c : Context σ, (∀ r ∈ rs, r.bImmidiateOverride = false) →
      (c.runRequests rs).mQueuedNext =
        (match rs.getLast? with
          | none => c.mQueuedNext
          | some r => r.newState) := by
  induction rs using List.reverseRecOn with
  | nil => intro c _; rfl
  | append_singleton rs r _ =>
    intro c h
    have hr : r.bImmidiateOverride = false := h r (by simp)
    rw [runRequests_append, runRequests_cons, runRequests_nil, hr, SetState_deferred]
    simp

theorem take_all_deferred (rs : List (Request σ)) (k : Nat)
    (h : ∀ r ∈ rs, r.bImmidiateOverride = false) :
    ∀ r ∈ rs.take k, r.bImmidiateOverride = false :=
  fun r hr => h r (List.mem_of_mem_take hr)

theorem map_deferred_all (ss : List σ) :
    ∀ r ∈ ss.map deferred, r.bImmidiateOverride = false := by
  intro r hr
  obtain ⟨s, _, rfl⟩ := List.mem_map.mp hr
  rfl

theorem HandleN_succ (proc : σ → List (Request σ)) (n : Nat) (c : Context σ) :
    c.HandleN proc (n + 1) =
      (((c.Handle proc).1.HandleN proc n).1,
        (c.Handle proc).2 ++ ((c.Handle proc).1.HandleN proc n).2) := rfl

/-- A context on which one `Handle` changes nothing and invokes nothing stays so under
any number of calls. -/
theorem HandleN_of_fixed (proc : σ → List (Request σ)) (c : Context σ)
    (h : c.Handle proc = (c, [])) (n : Nat) : c.HandleN proc n = (c, []) := by
  induction n with
  | zero => rfl
  | succ n ih => rw [HandleN_succ, h]; simp [ih]

/-- A context whose `Handle` invokes one state `s` that requests nothing returns to itself:
`n` calls invoke `s` exactly `n` times. -/
theorem HandleN_of_idle (proc : σ → List (Request σ)) (c : Context σ) (s : σ)
    (h : c.Handle proc = (c, [s])) (n : Nat) :
    c.HandleN proc n = (c, List.replicate n s) := by
  induction n with
  | zero => rfl
  | succ n ih => rw [HandleN_succ, h]; simp [ih, List.replicate_succ]

end Context

/-! ## The claims -/

section Claims

variable {σ : Type}

/-- C1 (deferred transition). In a context whose active slot holds `A` and whose pending
slot is empty, where the `Handle` of `A` makes the single call `SetState(B, false)`:
the first `Handle()` invokes `A` and nothing else (so not `B`, a different instance) and
returns with active `A` and pending `B`; the flush of the second `Handle()` makes `B`
active and clears pending, and that call invokes `B` and nothing else (so not `A`). -/
theorem deferred_transition_two_steps (proc : σ → List (Request σ)) (c : Context σ) (A B : σ)
    (hA : c.mCurrent = some A) (hP : c.mQueuedNext = none)
    (hproc : proc A = [⟨some B, false⟩]) :
    c.Handle proc = (⟨some A, some B⟩, [A])
    ∧ (B ≠ A → B ∉ (c.Handle proc).2)
    ∧ (c.Handle proc).1.FlushQueue = ⟨some B, none⟩
    ∧ (c.Handle proc).1.Handle proc = ((Context.mk (some B) none).runRequests (proc B), [B])
    ∧ (A ≠ B → A ∉ ((c.Handle proc).1.Handle proc).2) := by
  have hF : c.FlushQueue = c := Context.FlushQueue_none c hP
  have h1 : c.Handle proc = (⟨some A, some B⟩, [A]) := by
    rw [Context.Handle_of_active proc c A (by rw [hF, hA]), hF, hproc,
      Context.runRequests_cons, Context.runRequests_nil, Context.SetState_deferred, hA]
  have hF2 : (c.Handle proc).1.FlushQueue = ⟨some B, none⟩ := by
    rw [h1]; rfl
  have h2 : (c.Handle proc).1.Handle proc
      = ((Context.mk (some B) none).runRequests (proc B), [B]) := by
    rw [Context.Handle_of_active proc _ B (by rw [hF2]), hF2]
  refine ⟨h1, ?_, hF2, h2, ?_⟩
  · intro hne; rw [h1]; simpa using hne
  · intro hne; rw [h2]; simpa using hne

/-- C1 at the traffic light of `examples/semaphore.cpp`: the context built with
`RedLightState` runs red on the first step and green on the second. -/
theorem deferred_transition_two_steps_witness :
    (Context.init (some Light.RedLightState)).mCurrent = some Light.RedLightState
    ∧ (Context.init (some Light.RedLightState)).mQueuedNext = none
    ∧ Light.Handle Light.RedLightState = [⟨some Light.GreenLightState, false⟩]
    ∧ (Context.init (some Light.RedLightState)).Handle Light.Handle
        = (⟨some Light.RedLightState, some Light.GreenLightState⟩, [Light.RedLightState])
    ∧ ((Context.init (some Light.RedLightState)).Handle Light.Handle).1.Handle Light.Handle
        = ((Context.mk (some Light.GreenLightState) none).runRequests
            (Light.Handle Light.GreenLightState), [Light.GreenLightState]) :=
  have h := deferred_transition_two_steps Light.Handle (Context.init (some Light.RedLightState))
    Light.RedLightState Light.GreenLightState rfl rfl rfl
  ⟨rfl, rfl, rfl, h.1, h.2.2.2.1⟩

/-- C5 (non-immediate request). For every context and every argument `x` (a state or
null), `SetState(x, false)` leaves the pending slot equal to `x`, whatever was queued
before, and leaves the active slot as it was. -/
theorem SetState_deferred_post_frame (c : Context σ) (x : Option σ) :
    (c.SetState x false).mQueuedNext = x ∧ (c.SetState x false).mCurrent = c.mCurrent := by
  rw [Context.SetState_deferred]
  exact ⟨rfl, rfl⟩

/-- C6 (immediate request). For every context and every argument `x` (a state or null),
`SetState(x, true)` leaves the active slot equal to `x`, whatever was active before
(null when `x` is null), and leaves the pending slot as it was. -/
theorem SetState_immediate_post_frame (c : Context σ) (x : Option σ) :
    (c.SetState x true).mCurrent = x
    ∧ (c.SetState x true).mQueuedNext = c.mQueuedNext
    ∧ (c.SetState none true).mCurrent = none := by
  rw [Context.SetState_immediate, Context.SetState_immediate]
  exact ⟨rfl, rfl, rfl⟩

/-- C7 (queue flush). For every context, `FlushQueue()` with a pending state `P` gives
active `P` and pending null; with a null pending slot it changes neither slot; in both
cases the pending slot is null afterwards. -/
theorem FlushQueue_spec (c : Context σ) :
    (∀ P, c.mQueuedNext = some P → c.FlushQueue = ⟨some P, none⟩)
    ∧ (c.mQueuedNext = none → c.FlushQueue = c)
    ∧ c.FlushQueue.mQueuedNext = none :=
  ⟨fun P h => Context.FlushQueue_some c P h, Context.FlushQueue_none c,
    Context.FlushQueue_mQueuedNext c⟩

/-- C7 at concrete contexts: a queued green light replaces the active red one, and a
context with nothing queued is returned as it is. -/
theorem FlushQueue_spec_witness :
    (Context.mk (some Light.RedLightState) (some Light.GreenLightState)).FlushQueue
        = ⟨some Light.GreenLightState, none⟩
    ∧ (Context.mk (some Light.RedLightState) none).FlushQueue
        = ⟨some Light.RedLightState, none⟩ :=
  ⟨(FlushQueue_spec (Context.mk (some Light.RedLightState) (some Light.GreenLightState))).1
      Light.GreenLightState rfl,
    (FlushQueue_spec (Context.mk (some Light.RedLightState) none)).2.1 rfl⟩

/-- C8 (stepping a halted context). In a context whose two slots are null, `Handle()`
returns (the model is a total function), invokes no state and leaves both slots null;
so does any number `n` of repeated calls. -/
theorem Handle_halted_noop (proc : σ → List (Request σ)) (c : Context σ)
    (hA : c.mCurrent = none) (hP : c.mQueuedNext = none) (n : Nat) :
    c.Handle proc = (⟨none, none⟩, [])
    ∧ c.HandleN proc n = (⟨none, none⟩, [])
    ∧ c.HandleN proc n = (c, []) := by
  have hc : c = ⟨none, none⟩ := by
    cases c; simp_all
  have h1 : c.Handle proc = (c, []) := by
    rw [Context.Handle_of_halted proc c (by rw [Context.FlushQueue_none c hP, hA]),
      Context.FlushQueue_none c hP]
  have hn := Context.HandleN_of_fixed proc c h1 n
  refine ⟨?_, ?_, hn⟩
  · rw [h1, ← hc]
  · rw [hn, ← hc]

/-- C8 at the default-constructed traffic-light context, stepped five times. -/
theorem Handle_halted_noop_witness :
    (Context.new : Context Light).Handle Light.Handle = (⟨none, none⟩, [])
    ∧ (Context.new : Context Light).HandleN Light.Handle 5 = (⟨none, none⟩, []) :=
  have h := Handle_halted_noop Light.Handle (Context.new : Context Light) rfl rfl 5
  ⟨h.1, h.2.1⟩

/-- C9 (synchronous first activation). A default-constructed context has both slots
null, and for every state `C`, after `SetState(C, true)` on it the very next `Handle()`
invokes `C`, and only `C`, in that same call. -/
theorem first_activation_synchronous (proc : σ → List (Request σ)) (C : σ) :
    (Context.new : Context σ).mCurrent = none
    ∧ (Context.new : Context σ).mQueuedNext = none
    ∧ ((Context.new : Context σ).SetState (some C) true).Handle proc
        = ((Context.mk (some C) none).runRequests (proc C), [C]) := by
  refine ⟨rfl, rfl, ?_⟩
  have hs : (Context.new : Context σ).SetState (some C) true = ⟨some C, none⟩ := by
    rw [Context.SetState_immediate]; rfl
  rw [hs, Context.Handle_of_active proc (Context.mk (some C) none) C rfl]
  rfl

/-- C2 (queue-slot overwrite). For every context and every non-empty sequence of states
`pre ++ [Sn]` requested with `SetState(Si, false)` with no `Handle()` in between: the
context is the one a single request of `Sn` would have left; the active slot is untouched
after each of the requests; the flush of the next `Handle()` makes `Sn` active and clears
pending; that `Handle()` invokes `Sn` and nothing else; so an earlier `Si` that is not
the instance `Sn` is neither made active by the flush nor invoked. -/
theorem queue_slot_overwrite (proc : σ → List (Request σ)) (c : Context σ) (pre : List σ)
    (Sn : σ) :
    c.runRequests ((pre ++ [Sn]).map deferred) = c.SetState (some Sn) false
    ∧ (∀ k, (c.runRequests (((pre ++ [Sn]).map deferred).take k)).mCurrent = c.mCurrent)
    ∧ (c.runRequests ((pre ++ [Sn]).map deferred)).FlushQueue = ⟨some Sn, none⟩
    ∧ (c.runRequests ((pre ++ [Sn]).map deferred)).Handle proc
        = ((Context.mk (some Sn) none).runRequests (proc Sn), [Sn])
    ∧ (∀ s ∈ pre, s ≠ Sn →
        (c.runRequests ((pre ++ [Sn]).map deferred)).FlushQueue.mCurrent ≠ some s
        ∧ s ∉ ((c.runRequests ((pre ++ [Sn]).map deferred)).Handle proc).2) := by
  have hall := Context.map_deferred_all (pre ++ [Sn])
  have hcur := Context.runRequests_mCurrent_of_deferred _ c hall
  have hq := Context.runRequests_mQueuedNext_of_deferred _ c hall
  have hlast : ((pre ++ [Sn]).map deferred).getLast? = some (deferred Sn) := by
    simp [List.map_append]
  rw [hlast] at hq
  have h0 : c.runRequests ((pre ++ [Sn]).map deferred) = c.SetState (some Sn) false := by
    rw [Context.SetState_deferred]
    cases hc : c.runRequests ((pre ++ [Sn]).map deferred) with
    | mk a b =>
      rw [hc] at hcur hq
      simp only at hcur hq
      rw [hcur, hq]; rfl
  have hF : (c.runRequests ((pre ++ [Sn]).map deferred)).FlushQueue = ⟨some Sn, none⟩ := by
    rw [h0, Context.SetState_deferred]; rfl
  have hH : (c.runRequests ((pre ++ [Sn]).map deferred)).Handle proc
      = ((Context.mk (some Sn) none).runRequests (proc Sn), [Sn]) := by
    rw [Context.Handle_of_active proc _ Sn (by rw [hF]), hF]
  refine ⟨h0, ?_, hF, hH, ?_⟩
  · intro k
    exact Context.runRequests_mCurrent_of_deferred _ c (Context.take_all_deferred _ k hall)
  · intro s _ hne
    rw [hF, hH]
    constructor
    · intro h; exact hne (Option.some.inj h).symm
    · simpa using hne

/-- C2 at the traffic light: orange, then red, then green are queued on a context running
red; only green is applied. -/
theorem queue_slot_overwrite_witness :
    (Context.init (some Light.RedLightState)).runRequests
        (([Light.OrangeLightState, Light.RedLightState] ++ [Light.GreenLightState]).map deferred)
      = ⟨some Light.RedLightState, some Light.GreenLightState⟩
    ∧ ((Context.init (some Light.RedLightState)).runRequests
        (([Light.OrangeLightState, Light.RedLightState] ++ [Light.GreenLightState]).map
          deferred)).Handle Light.Handle
      = (⟨some Light.GreenLightState, some Light.OrangeLightState⟩, [Light.GreenLightState])
    ∧ Light.OrangeLightState ∉
        (((Context.init (some Light.RedLightState)).runRequests
          (([Light.OrangeLightState, Light.RedLightState] ++ [Light.GreenLightState]).map
            deferred)).Handle Light.Handle).2 :=
  have h := queue_slot_overwrite Light.Handle (Context.init (some Light.RedLightState))
    [Light.OrangeLightState, Light.RedLightState] Light.GreenLightState
  ⟨h.1, h.2.2.2.1, (h.2.2.2.2 Light.OrangeLightState (by decide) (by decide)).2⟩

/-- C3 (immediate override next to a queued request). For every context in which a
`Handle()` runs the state `A` (it is active after the flush), where the `Handle` of `A`
calls `SetState(Q, false)` and then `SetState(I, true)`: the call returns with active `I`
and pending `Q`, having invoked `A` only; the next `Handle()`, with no request in
between, flushes `Q` into the active slot, clears pending, and invokes `Q` only. -/
theorem immediate_override_keeps_queued (proc : σ → List (Request σ)) (c : Context σ)
    (A Q : σ) (I : Option σ)
    (hA : c.FlushQueue.mCurrent = some A)
    (hproc : proc A = [⟨some Q, false⟩, ⟨I, true⟩]) :
    c.Handle proc = (⟨I, some Q⟩, [A])
    ∧ (c.Handle proc).1.FlushQueue = ⟨some Q, none⟩
    ∧ (c.Handle proc).1.Handle proc
        = ((Context.mk (some Q) none).runRequests (proc Q), [Q]) := by
  have h1 : c.Handle proc = (⟨I, some Q⟩, [A]) := by
    rw [Context.Handle_of_active proc c A hA, hproc, Context.runRequests_cons,
      Context.runRequests_cons, Context.runRequests_nil, Context.SetState_deferred,
      Context.SetState_immediate]
  have hF : (c.Handle proc).1.FlushQueue = ⟨some Q, none⟩ := by
    rw [h1]; rfl
  refine ⟨h1, hF, ?_⟩
  rw [Context.Handle_of_active proc _ Q (by rw [hF]), hF]

/-- C3 at a three-state machine over `Nat`: state `0` queues state `1` and then overrides
itself with state `2`; states `1` and `2` request nothing. -/
theorem immediate_override_keeps_queued_witness :
    (Context.init (some 0)).Handle
        (fun n : Nat => if n = 0 then [⟨some 1, false⟩, ⟨some 2, true⟩] else [])
      = (⟨some 2, some 1⟩, [0])
    ∧ ((Context.init (some 0)).Handle
        (fun n : Nat => if n = 0 then [⟨some 1, false⟩, ⟨some 2, true⟩] else [])).1.Handle
        (fun n : Nat => if n = 0 then [⟨some 1, false⟩, ⟨some 2, true⟩] else [])
      = (⟨some 1, none⟩, [1]) :=
  have h := immediate_override_keeps_queued
    (fun n : Nat => if n = 0 then [⟨some 1, false⟩, ⟨some 2, true⟩] else [])
    (Context.init (some 0)) 0 1 (some 2) rfl rfl
  ⟨h.1, h.2.2⟩

/-- C4, the claim as stated fails. With red active and green queued, `SetState(null, true)`
followed by one or by three `Handle()` calls of states that request nothing leaves green
active, not a null slot. -/
theorem halting_counterexample :
    (((Context.mk (some Light.RedLightState) (some Light.GreenLightState)).SetState
        none true).HandleN (fun _ => []) 1).1.mCurrent = some Light.GreenLightState
    ∧ (((Context.mk (some Light.RedLightState) (some Light.GreenLightState)).SetState
        none true).HandleN (fun _ => []) 3).1.mCurrent = some Light.GreenLightState := by
  decide

/-- C4 as amended. For every context and every number `n` of `Handle()` calls after the
request: after `SetState(null, true)` on a context with nothing queued both slots are null
and nothing is invoked; after `SetState(null, true)` on a context with `P` queued, where
`P` requests nothing, `P` is active from the first call on. -/
theorem halting_amended (proc : σ → List (Request σ)) (c : Context σ) (n : Nat) :
    (c.mQueuedNext = none → (c.SetState none true).HandleN proc n = (⟨none, none⟩, []))
    ∧ (∀ P, c.mQueuedNext = some P → proc P = [] →
        ((c.SetState none true).HandleN proc (n + 1)).1 = ⟨some P, none⟩) := by
  refine ⟨?_, ?_⟩
  · intro hP
    rw [Context.SetState_immediate, hP]
    exact Context.HandleN_of_fixed proc _
      (Context.Handle_of_halted proc (Context.mk none none) rfl) n
  · intro P hP hproc
    rw [Context.SetState_immediate, hP, Context.HandleN_succ]
    have h1 : (Context.mk none (some P)).Handle proc = (⟨some P, none⟩, [P]) := by
      rw [Context.Handle_of_active proc (Context.mk none (some P)) P rfl, hproc]; rfl
    have h2 : (Context.mk (some P) none).Handle proc = (⟨some P, none⟩, [P]) := by
      rw [Context.Handle_of_active proc (Context.mk (some P) none) P rfl, hproc]; rfl
    rw [h1, Context.HandleN_of_idle proc _ P h2 n]

/-- C4 as amended, at the traffic-light states with idle behaviour: an immediate null
request on a context running red with nothing queued halts it; with green queued, green
runs. -/
theorem halting_amended_witness :
    ((Context.init (some Light.RedLightState)).SetState none true).HandleN (fun _ => []) 2
      = (⟨none, none⟩, [])
    ∧ (((Context.mk (some Light.RedLightState) (some Light.GreenLightState)).SetState
        none true).HandleN (fun _ => []) (2 + 1)).1 = ⟨some Light.GreenLightState, none⟩ :=
  ⟨(halting_amended (fun _ => []) (Context.init (some Light.RedLightState)) 2).1 rfl,
    (halting_amended (fun _ => [])
      (Context.mk (some Light.RedLightState) (some Light.GreenLightState)) 2).2
      Light.GreenLightState rfl rfl⟩

/-- C10 (the executing state is not replaced by deferred requests). For every context in
which a `Handle()` runs the state `A` (it is active after the flush), where every request
of `A` is non-immediate (null arguments included): that call invokes `A` only; the active
slot holds `A` after each of the first `k` requests, for every `k`, and when the call
returns; the call returns with the argument of the last request pending (null if there
was none); and the flush of the next `Handle()` puts a non-null pending state in the place
of `A` and leaves `A` where the pending slot is null. -/
theorem active_stable_under_deferred (proc : σ → List (Request σ)) (c : Context σ) (A : σ)
    (hA : c.FlushQueue.mCurrent = some A)
    (hdef : ∀ r ∈ proc A, r.bImmidiateOverride = false) :
    (c.Handle proc).2 = [A]
    ∧ (∀ k, (c.FlushQueue.runRequests ((proc A).take k)).mCurrent = some A)
    ∧ (c.Handle proc).1 = ⟨some A, (proc A).getLast?.bind Request.newState⟩
    ∧ (∀ q, (c.Handle proc).1.mQueuedNext = some q →
        (c.Handle proc).1.FlushQueue.mCurrent = some q)
    ∧ ((c.Handle proc).1.mQueuedNext = none →
        (c.Handle proc).1.FlushQueue.mCurrent = some A) := by
  have hH := Context.Handle_of_active proc c A hA
  have hcur : (c.FlushQueue.runRequests (proc A)).mCurrent = some A := by
    rw [Context.runRequests_mCurrent_of_deferred _ _ hdef, hA]
  have hq : (c.FlushQueue.runRequests (proc A)).mQueuedNext
      = (proc A).getLast?.bind Request.newState := by
    rw [Context.runRequests_mQueuedNext_of_deferred _ _ hdef, Context.FlushQueue_mQueuedNext]
    cases (proc A).getLast? <;> rfl
  have h1 : (c.Handle proc).1 = ⟨some A, (proc A).getLast?.bind Request.newState⟩ := by
    rw [hH]
    cases hc : c.FlushQueue.runRequests (proc A) with
    | mk a b =>
      rw [hc] at hcur hq
      simp only at hcur hq
      rw [hcur, hq]
  refine ⟨by rw [hH], ?_, h1, ?_, ?_⟩
  · intro k
    rw [Context.runRequests_mCurrent_of_deferred _ _ (Context.take_all_deferred _ k hdef), hA]
  · intro q hq'
    rw [Context.FlushQueue_some _ q hq']
  · intro hq'
    rw [Context.FlushQueue_none _ hq', h1]

/-- C10 at the traffic light: while red runs and queues green, red stays active; green
takes its place in the flush of the next step. -/
theorem active_stable_under_deferred_witness :
    ((Context.init (some Light.RedLightState)).Handle Light.Handle).2 = [Light.RedLightState]
    ∧ ((Context.init (some Light.RedLightState)).FlushQueue.runRequests
        ((Light.Handle Light.RedLightState).take 1)).mCurrent = some Light.RedLightState
    ∧ ((Context.init (some Light.RedLightState)).Handle Light.Handle).1
        = ⟨some Light.RedLightState, some Light.GreenLightState⟩
    ∧ ((Context.init (some Light.RedLightState)).Handle Light.Handle).1.FlushQueue.mCurrent
        = some Light.GreenLightState :=
  have h := active_stable_under_deferred Light.Handle (Context.init (some Light.RedLightState))
    Light.RedLightState rfl (by decide)
  ⟨h.1, h.2.1 1, h.2.2.1, h.2.2.2.1 Light.GreenLightState rfl⟩

end Claims

/-! ## Dispatch, emptying of the active slot, and the traffic light -/

namespace Context

variable {σ : Type}

/-- Calls of `SetState` on a context whose active slot is filled can empty that slot only
if one of them is `SetState(null, true)`. -/
theorem mem_of_runRequests_mCurrent_none (rs : List (Request σ)) :
    ∀ c : Context σ, c.mCurrent.isSome = true → (c.runRequests rs).mCurrent = none →
      (⟨none, true⟩ : Request σ) ∈ rs := by
  induction rs with
  | nil =>
    intro c hc hn
    rw [runRequests_nil] at hn
    rw [hn] at hc
    exact absurd hc (by simp)
  | cons r rs ih =>
    intro c hc hn
    rw [runRequests_cons] at hn
    obtain ⟨x, b⟩ := r
    cases b with
    | false =>
      have h1 : (c.SetState x false).mCurrent.isSome = true := by
        rw [SetState_deferred]; exact hc
      exact List.mem_cons_of_mem _ (ih _ h1 hn)
    | true =>
      cases x with
      | none => exact List.mem_cons_self _ _
      | some s =>
        have h1 : (c.SetState (some s) true).mCurrent.isSome = true := by
          rw [SetState_immediate]; rfl
        exact List.mem_cons_of_mem _ (ih _ h1 hn)

theorem HandleN_zero (proc : σ → List (Request σ)) (c : Context σ) :
    c.HandleN proc 0 = (c, []) := rfl

/-- Running `n + 1` steps is running `n` steps and then one more. -/
theorem HandleN_succ_last (proc : σ → List (Request σ)) (n : Nat) :
    ∀ c : Context σ, c.HandleN proc (n + 1) =
      (((c.HandleN proc n).1.Handle proc).1,
        (c.HandleN proc n).2 ++ ((c.HandleN proc n).1.Handle proc).2) := by
  induction n with
  | zero => intro c; simp [HandleN_succ, HandleN_zero]
  | succ n ih =>
    intro c
    rw [HandleN_succ, ih (c.Handle proc).1, HandleN_succ]
    simp [List.append_assoc]

/-- One deferred request on a context with active state `s` and nothing pending. -/
theorem runRequests_single_deferred (c : Context σ) (s t : σ) (h : c.mCurrent = some s) :
    c.runRequests [⟨some t, false⟩] = ⟨some s, some t⟩ := by
  rw [runRequests_cons, runRequests_nil, SetState_deferred, h]

end Context

section Claims

variable {σ : Type}

/-- C15 (dispatch of a step). For every context, `Handle()` flushes first; the states it
invokes are exactly the active state after the flush, once, or none when that slot is
null; the invoked state's requests are applied to that same flushed context; with a null
active slot after the flush the call returns the flushed context untouched. -/
theorem Handle_dispatch (proc : σ → List (Request σ)) (c : Context σ) :
    (c.Handle proc).2 = c.FlushQueue.mCurrent.toList
    ∧ (∀ s, c.FlushQueue.mCurrent = some s →
        c.Handle proc = (c.FlushQueue.runRequests (proc s), [s]))
    ∧ (c.FlushQueue.mCurrent = none → c.Handle proc = (c.FlushQueue, [])) := by
  refine ⟨?_, fun s h => Context.Handle_of_active proc c s h,
    fun h => Context.Handle_of_halted proc c h⟩
  cases h : c.FlushQueue.mCurrent with
  | none => rw [Context.Handle_of_halted proc c h]; rfl
  | some s => rw [Context.Handle_of_active proc c s h]; rfl

/-- C15 at the traffic light: with red active and green queued, the step invokes green,
once, and nothing else; a context with two null slots invokes nothing. -/
theorem Handle_dispatch_witness :
    ((Context.mk (some Light.RedLightState) (some Light.GreenLightState)).Handle
        Light.Handle) = (⟨some Light.GreenLightState, some Light.OrangeLightState⟩,
          [Light.GreenLightState])
    ∧ (Context.new : Context Light).Handle Light.Handle = (⟨none, none⟩, []) :=
  ⟨(Handle_dispatch Light.Handle
      (Context.mk (some Light.RedLightState) (some Light.GreenLightState))).2.1
      Light.GreenLightState rfl,
    (Handle_dispatch Light.Handle (Context.new : Context Light)).2.2 rfl⟩

/-- C17 (only an immediate null request empties the active slot). For every context whose
active slot is not null: `FlushQueue()` and `SetState(x, false)`, for any `x`, leave it not
null; a `SetState(x, b)` that leaves it null has `x` null and `b` true; a sequence of
`SetState` calls that leaves it null contains `SetState(null, true)`; and a `Handle()` that
returns with it null has invoked a state that made the call `SetState(null, true)`. -/
theorem active_emptied_only_by_immediate_null (proc : σ → List (Request σ)) (c : Context σ)
    (h : c.mCurrent ≠ none) :
    c.FlushQueue.mCurrent ≠ none
    ∧ (∀ x, (c.SetState x false).mCurrent ≠ none)
    ∧ (∀ x b, (c.SetState x b).mCurrent = none → x = none ∧ b = true)
    ∧ (∀ rs, (c.runRequests rs).mCurrent = none → (⟨none, true⟩ : Request σ) ∈ rs)
    ∧ ((c.Handle proc).1.mCurrent = none →
        ∃ s, c.FlushQueue.mCurrent = some s ∧ (⟨none, true⟩ : Request σ) ∈ proc s) := by
  have hsome : c.mCurrent.isSome = true := by
    cases hc : c.mCurrent with
    | none => exact absurd hc h
    | some s => rfl
  have hF : c.FlushQueue.mCurrent ≠ none := by
    cases hq : c.mQueuedNext with
    | none => rw [Context.FlushQueue_none c hq]; exact h
    | some p => rw [Context.FlushQueue_some c p hq]; simp
  refine ⟨hF, ?_, ?_, ?_, ?_⟩
  · intro x
    rw [Context.SetState_deferred]; exact h
  · intro x b hn
    cases b with
    | false => rw [Context.SetState_deferred] at hn; exact absurd hn h
    | true => rw [Context.SetState_immediate] at hn; exact ⟨hn, rfl⟩
  · intro rs hn
    exact Context.mem_of_runRequests_mCurrent_none rs c hsome hn
  · intro hn
    cases hs : c.FlushQueue.mCurrent with
    | none => exact absurd hs hF
    | some s =>
      rw [Context.Handle_of_active proc c s hs] at hn
      exact ⟨s, rfl, Context.mem_of_runRequests_mCurrent_none (proc s) c.FlushQueue
        (by rw [hs]; rfl) hn⟩

/-- C17 at the traffic light: with red active and nothing queued, a flush, a deferred null
request and a deferred request of green all leave the active slot filled. -/
theorem active_emptied_only_by_immediate_null_witness :
    (Context.init (some Light.RedLightState)).FlushQueue.mCurrent ≠ none
    ∧ ((Context.init (some Light.RedLightState)).SetState none false).mCurrent ≠ none
    ∧ ((Context.init (some Light.RedLightState)).SetState
        (some Light.GreenLightState) false).mCurrent ≠ none :=
  have h := active_emptied_only_by_immediate_null Light.Handle
    (Context.init (some Light.RedLightState)) (by decide)
  ⟨h.1, h.2.1 none, h.2.1 (some Light.GreenLightState)⟩

end Claims

/-- After `n` steps of the traffic light built with `RedLightState`, the state the next
step will run is red, green or orange according to `n % 3`, and the active slot is
filled. -/
theorem Light.next_after_steps (n : Nat) :
    ((Context.init (some Light.RedLightState)).HandleN Light.Handle n).1.FlushQueue.mCurrent
      = some (if n % 3 = 0 then Light.RedLightState
          else if n % 3 = 1 then Light.GreenLightState else Light.OrangeLightState)
    ∧ ((Context.init (some Light.RedLightState)).HandleN Light.Handle n).1.mCurrent.isSome
      = true := by
  induction n with
  | zero => exact ⟨rfl, rfl⟩
  | succ n ih =>
    obtain ⟨h1, _⟩ := ih
    rw [Context.HandleN_succ_last]
    simp only
    rw [Context.Handle_of_active Light.Handle _ _ h1]
    simp only
    have h3 : n % 3 = 0 ∨ n % 3 = 1 ∨ n % 3 = 2 := by omega
    rcases h3 with h | h | h
    · have h' : (n + 1) % 3 = 1 := by omega
      rw [h] at h1
      change _ = some Light.RedLightState at h1
      rw [h, h']
      change (Context.runRequests _ [⟨some Light.GreenLightState, false⟩]).FlushQueue.mCurrent
          = some Light.GreenLightState
        ∧ (Context.runRequests _ [⟨some Light.GreenLightState, false⟩]).mCurrent.isSome = true
      rw [Context.runRequests_single_deferred _ Light.RedLightState Light.GreenLightState h1]
      exact ⟨rfl, rfl⟩
    · have h' : (n + 1) % 3 = 2 := by omega
      rw [h] at h1
      change _ = some Light.GreenLightState at h1
      rw [h, h']
      change (Context.runRequests _ [⟨some Light.OrangeLightState, false⟩]).FlushQueue.mCurrent
          = some Light.OrangeLightState
        ∧ (Context.runRequests _ [⟨some Light.OrangeLightState, false⟩]).mCurrent.isSome = true
      rw [Context.runRequests_single_deferred _ Light.GreenLightState Light.OrangeLightState h1]
      exact ⟨rfl, rfl⟩
    · have h' : (n + 1) % 3 = 0 := by omega
      rw [h] at h1
      change _ = some Light.OrangeLightState at h1
      rw [h, h']
      change (Context.runRequests _ [⟨some Light.RedLightState, false⟩]).FlushQueue.mCurrent
          = some Light.RedLightState
        ∧ (Context.runRequests _ [⟨some Light.RedLightState, false⟩]).mCurrent.isSome = true
      rw [Context.runRequests_single_deferred _ Light.OrangeLightState Light.RedLightState h1]
      exact ⟨rfl, rfl⟩

section Claims

variable {σ : Type}

/-- C20 (the traffic light cycles for ever). From the context constructed with
`RedLightState`, for every `n` the call number `n + 1` of `Handle()` invokes exactly one
state: red when `n % 3 = 0`, green when `n % 3 = 1`, orange when `n % 3 = 2`; and the
active slot is not null before the first step and after every step. -/
theorem semaphore_cycles (n : Nat) :
    (((Context.init (some Light.RedLightState)).HandleN Light.Handle n).1.Handle
        Light.Handle).2
      = [if n % 3 = 0 then Light.RedLightState
          else if n % 3 = 1 then Light.GreenLightState else Light.OrangeLightState]
    ∧ ((Context.init (some Light.RedLightState)).HandleN Light.Handle n).1.mCurrent.isSome
      = true
    ∧ ((Context.init (some Light.RedLightState)).HandleN Light.Handle (n + 1)).1.mCurrent.isSome
      = true := by
  refine ⟨?_, (Light.next_after_steps n).2, (Light.next_after_steps (n + 1)).2⟩
  rw [Context.Handle_of_active Light.Handle _ _ (Light.next_after_steps n).1]

end Claims

/-! ## Exclusive ownership -/

namespace Context

variable {σ : Type}

theorem filterMap_cons_toList {α β : Type} (f : α → Option β) (a : α) (l : List α) :
    (a :: l).filterMap f = (f a).toList ++ l.filterMap f := by
  cases h : f a <;> simp [List.filterMap_cons, h]

theorem OwnsFrom_init (x : Option σ) : (Context.init x).OwnsFrom x.toList := by
  refine ⟨?_, ?_, ?_⟩
  · intro s hs
    have hx : x = some s := hs
    subst hx; simp
  · intro s hs; exact absurd hs (by simp [Context.init])
  · intro s _ hq; exact absurd hq (by simp [Context.init])

theorem OwnsFrom_SetState (used : List σ) (c : Context σ) (x : Option σ) (b : Bool)
    (h : c.OwnsFrom used) (hx : ∀ s, x = some s → s ∉ used) :
    (c.SetState x b).OwnsFrom (used ++ x.toList) := by
  obtain ⟨h1, h2, _⟩ := h
  cases b with
  | false =>
    rw [SetState_deferred]
    refine ⟨fun s hs => List.mem_append_left _ (h1 s hs), ?_, ?_⟩
    · intro s hs
      have hs' : x = some s := hs
      subst hs'; simp
    · intro s hs hq
      exact hx s hq (h1 s hs)
  | true =>
    rw [SetState_immediate]
    refine ⟨?_, fun s hs => List.mem_append_left _ (h2 s hs), ?_⟩
    · intro s hs
      have hs' : x = some s := hs
      subst hs'; simp
    · intro s hs hq
      exact hx s hs (h2 s hq)

theorem OwnsFrom_FlushQueue (used : List σ) (c : Context σ) (h : c.OwnsFrom used) :
    c.FlushQueue.OwnsFrom used := by
  cases hq : c.mQueuedNext with
  | none => rw [FlushQueue_none c hq]; exact h
  | some p =>
    rw [FlushQueue_some c p hq]
    refine ⟨?_, ?_, ?_⟩
    · intro s hs
      exact h.2.1 s (by rw [hq]; exact hs)
    · intro s hs; exact absurd hs (by simp)
    · intro s _ hs; exact absurd hs (by simp)

theorem fresh_of_nodup_append (used : List σ) (x : Option σ) (rest : List σ)
    (hn : (used ++ (x.toList ++ rest)).Nodup) : ∀ s, x = some s → s ∉ used := by
  intro s hs hmem
  subst hs
  have hd := (List.nodup_append.mp hn).2.2
  exact hd hmem (by simp)

/-- Requests of fresh instances keep the slots apart, after each request and at the
end. -/
theorem OwnsFrom_runRequests (rs : List (Request σ)) :
    ∀ (used : List σ) (c : Context σ), c.OwnsFrom used →
      (used ++ rs.filterMap Request.newState).Nodup →
      (c.runRequests rs).OwnsFrom (used ++ rs.filterMap Request.newState)
      ∧ ∀ p ∈ c.requestPoints rs, ∀ s, p.mCurrent = some s → p.mQueuedNext ≠ some s := by
  induction rs with
  | nil =>
    intro used c h _
    refine ⟨by simpa [runRequests_nil] using h, ?_⟩
    intro p hp; simp [requestPoints] at hp
  | cons r rs ih =>
    intro used c h hn
    rw [filterMap_cons_toList] at hn ⊢
    have hfresh := fresh_of_nodup_append used r.newState _ hn
    have h1 := OwnsFrom_SetState used c r.newState r.bImmidiateOverride h hfresh
    rw [← List.append_assoc] at hn ⊢
    obtain ⟨ihA, ihB⟩ := ih _ _ h1 hn
    refine ⟨by rw [runRequests_cons]; exact ihA, ?_⟩
    intro p hp
    simp only [requestPoints, List.mem_cons] at hp
    rcases hp with hp | hp
    · rw [hp]; exact h1.2.2
    · exact ihB p hp

/-- One call handing over fresh instances keeps the slots apart, at every context it
passes through and at its end. -/
theorem OwnsFrom_exec (proc : σ → List (Request σ)) (k : Call σ) (used : List σ)
    (c : Context σ) (h : c.OwnsFrom used) (hn : (used ++ k.passed proc c).Nodup) :
    (k.exec proc c).1.OwnsFrom (used ++ k.passed proc c)
    ∧ ∀ p ∈ k.points proc c, ∀ s, p.mCurrent = some s → p.mQueuedNext ≠ some s := by
  cases k with
  | SetState x b =>
    have hn' : (used ++ (x.toList ++ [])).Nodup := by simpa [Call.passed] using hn
    have h1 := OwnsFrom_SetState used c x b h (fresh_of_nodup_append used x [] hn')
    refine ⟨h1, ?_⟩
    intro p hp
    simp only [Call.points, List.mem_singleton] at hp
    rw [hp]; exact h1.2.2
  | FlushQueue =>
    have h1 := OwnsFrom_FlushQueue used c h
    refine ⟨by simpa [Call.passed, Call.exec] using h1, ?_⟩
    intro p hp
    simp only [Call.points, List.mem_singleton] at hp
    rw [hp]; exact h1.2.2
  | Handle =>
    have h1 := OwnsFrom_FlushQueue used c h
    cases hcur : c.FlushQueue.mCurrent with
    | none =>
      simp only [Call.passed, Call.exec, Call.points, hcur, Handle_of_halted proc c hcur,
        List.append_nil, List.mem_singleton]
      refine ⟨h1, ?_⟩
      intro p hp
      rw [hp]; exact h1.2.2
    | some s =>
      simp only [Call.passed, hcur] at hn
      obtain ⟨hA, hB⟩ := OwnsFrom_runRequests (proc s) used c.FlushQueue h1 hn
      simp only [Call.passed, Call.exec, Call.points, hcur, Handle_of_active proc c s hcur,
        List.mem_cons]
      refine ⟨hA, ?_⟩
      intro p hp
      rcases hp with hp | hp
      · rw [hp]; exact h1.2.2
      · exact hB p hp

/-- A sequence of calls handing over fresh instances keeps the slots apart throughout. -/
theorem OwnsFrom_runCalls (proc : σ → List (Request σ)) (ks : List (Call σ)) :
    ∀ (used : List σ) (c : Context σ), c.OwnsFrom used →
      (used ++ c.passedBy proc ks).Nodup →
      (c.runCalls proc ks).1.OwnsFrom (used ++ c.passedBy proc ks)
      ∧ ∀ p ∈ c.visitedAfter proc ks, ∀ s, p.mCurrent = some s → p.mQueuedNext ≠ some s := by
  induction ks with
  | nil =>
    intro used c h _
    refine ⟨by simpa [runCalls, passedBy] using h, ?_⟩
    intro p hp; simp [visitedAfter] at hp
  | cons k ks ih =>
    intro used c h hn
    simp only [passedBy] at hn ⊢
    rw [← List.append_assoc] at hn ⊢
    have hk : (used ++ k.passed proc c).Nodup := (List.nodup_append.mp hn).1
    obtain ⟨hA, hB⟩ := OwnsFrom_exec proc k used c h hk
    obtain ⟨ihA, ihB⟩ := ih _ _ hA hn
    refine ⟨ihA, ?_⟩
    intro p hp
    simp only [visitedAfter, List.mem_append] at hp
    rcases hp with hp | hp
    · exact hB p hp
    · exact ihB p hp

end Context

section Claims

variable {σ : Type}

/-- C11 (exclusive ownership). State instances are the values of `σ`. For every context
constructed with `initialState` (null for the default constructor) and every sequence of
`SetState`, `FlushQueue` and `Handle` calls on it in which each instance handed to the
constructor or to `SetState`, from outside or by an invoked state, is handed over once
only: at the start, after each call, and inside each `Handle()` after the flush and after
each request, the active and the pending slot do not hold the same instance; and a flush
leaves the pending slot null. -/
theorem slots_never_share_instance (proc : σ → List (Request σ)) (initialState : Option σ)
    (calls : List (Call σ))
    (hfresh : (initialState.toList ++ (Context.init initialState).passedBy proc calls).Nodup) :
    (∀ p ∈ Context.init initialState :: (Context.init initialState).visitedAfter proc calls,
        ∀ s, p.mCurrent = some s → p.mQueuedNext ≠ some s)
    ∧ (∀ s, ((Context.init initialState).runCalls proc calls).1.mCurrent = some s →
        ((Context.init initialState).runCalls proc calls).1.mQueuedNext ≠ some s)
    ∧ (∀ p ∈ Context.init initialState :: (Context.init initialState).visitedAfter proc calls,
        p.FlushQueue.mQueuedNext = none) := by
  have h0 := Context.OwnsFrom_init initialState
  obtain ⟨hA, hB⟩ := Context.OwnsFrom_runCalls proc calls _ _ h0 hfresh
  refine ⟨?_, hA.2.2, fun p _ => Context.FlushQueue_mQueuedNext p⟩
  intro p hp
  rcases List.mem_cons.mp hp with hp | hp
  · rw [hp]; exact h0.2.2
  · exact hB p hp

/-- C11 at a machine over `Nat` in which instance `n` queues the new instance `n + 1`:
constructed with instance `0`, stepped twice, flushed, handed instance `10` from outside
and stepped again, it ends with instance `10` active and instance `11` pending. -/
theorem slots_never_share_instance_witness :
    ((some 0).toList ++ (Context.init (some 0)).passedBy (fun n : Nat => [deferred (n + 1)])
        [Call.Handle, Call.Handle, Call.FlushQueue, Call.SetState (some 10) false,
          Call.Handle]).Nodup
    ∧ ((Context.init (some 0)).runCalls (fun n : Nat => [deferred (n + 1)])
        [Call.Handle, Call.Handle, Call.FlushQueue, Call.SetState (some 10) false,
          Call.Handle]).1 = ⟨some 10, some 11⟩
    ∧ ((Context.init (some 0)).runCalls (fun n : Nat => [deferred (n + 1)])
        [Call.Handle, Call.Handle, Call.FlushQueue, Call.SetState (some 10) false,
          Call.Handle]).1.mQueuedNext ≠ some 10 :=
  ⟨by decide, by decide,
    (slots_never_share_instance (fun n : Nat => [deferred (n + 1)]) (some 0)
      [Call.Handle, Call.Handle, Call.FlushQueue, Call.SetState (some 10) false, Call.Handle]
      (by decide)).2.1 10 (by decide)⟩

end Claims

/-! ## The build with `SFSM_MT` against the build without it -/

namespace MTContext

variable {σ : Type}

theorem toContext_ofContext (c : Context σ) (t : List (Event σ)) :
    (ofContext c t).toContext = c := rfl

theorem SetState_free (m : MTContext σ) (x : Option σ) (b : Bool) (h : m.mQueueMutex = false) :
    m.SetState x b
      = some (ofContext (m.toContext.SetState x b) (m.trace ++ [Event.lock, Event.unlock])) := by
  cases b <;>
    simp [SetState, lock, unlock, h, ofContext, toContext, Context.SetState]

theorem FlushQueue_free (m : MTContext σ) (h : m.mQueueMutex = false) :
    m.FlushQueue
      = some (ofContext m.toContext.FlushQueue (m.trace ++ [Event.lock, Event.unlock])) := by
  cases hq : m.mQueuedNext <;>
    simp [FlushQueue, lock, unlock, h, hq, ofContext, toContext, Context.FlushQueue]

theorem runRequests_free (rs : List (Request σ)) :
    ∀ m : MTContext σ, m.mQueueMutex = false →
      m.runRequests rs
        = some (ofContext (m.toContext.runRequests rs)
            (m.trace ++ rs.flatMap (fun _ => [Event.lock, Event.unlock]))) := by
  induction rs with
  | nil =>
    intro m h
    cases m
    simp_all [runRequests, ofContext, toContext, Context.runRequests]
  | cons r rs ih =>
    intro m h
    rw [runRequests, SetState_free m _ _ h]
    simp only
    rw [ih _ rfl, toContext_ofContext, Context.runRequests_cons]
    simp [ofContext, List.append_assoc]

/-- A `Handle()` on a free mutex: the slots are those of the build without `SFSM_MT`, the
mutex is free again, and the events are the guard of the flush followed, if a state is
active, by its invocation with the mutex free and the guard of each of its requests. -/
theorem Handle_free (proc : σ → List (Request σ)) (m : MTContext σ)
    (h : m.mQueueMutex = false) :
    m.Handle proc
      = some (ofContext (m.toContext.Handle proc).1
          (m.trace ++ [Event.lock, Event.unlock] ++
            (match m.toContext.FlushQueue.mCurrent with
              | none => []
              | some s =>
                Event.invoke s false
                  :: (proc s).flatMap (fun _ => [Event.lock, Event.unlock])))) := by
  rw [Handle, FlushQueue_free m h]
  simp only
  cases hcur : m.toContext.FlushQueue.mCurrent with
  | none =>
    have h1 : (ofContext m.toContext.FlushQueue
        (m.trace ++ [Event.lock, Event.unlock])).mCurrent = none := hcur
    rw [Context.Handle_of_halted proc _ hcur]
    simp [h1]
  | some s =>
    have h1 : (ofContext m.toContext.FlushQueue
        (m.trace ++ [Event.lock, Event.unlock])).mCurrent = some s := hcur
    rw [Context.Handle_of_active proc _ s hcur]
    simp only [h1]
    rw [runRequests_free _ _ rfl]
    have hX : (⟨some s, (Context.mk m.mCurrent m.mQueuedNext).FlushQueue.mQueuedNext⟩ : Context σ)
        = (Context.mk m.mCurrent m.mQueuedNext).FlushQueue := by
      have hcur' : (Context.mk m.mCurrent m.mQueuedNext).FlushQueue.mCurrent = some s := hcur
      rw [← hcur']
    simp only [ofContext, toContext, hX]
    simp [List.append_assoc]

theorem guards_invoke_nothing {α : Type} (l : List α) :
    (l.flatMap (fun _ => [(Event.lock : Event σ), Event.unlock])).filterMap Event.invoked
      = [] := by
  induction l with
  | nil => rfl
  | cons a l ih => simpa [List.flatMap_cons, Event.invoked] using ih

theorem not_mem_guards {α : Type} (l : List α) (s : σ) (held : Bool) :
    Event.invoke s held ∉ l.flatMap (fun _ => [(Event.lock : Event σ), Event.unlock]) := by
  simp [List.mem_flatMap]

theorem ofContext_toContext (m : MTContext σ) (h : m.mQueueMutex = false) :
    ofContext m.toContext m.trace = m := by
  cases m
  simp_all [ofContext, toContext]

/-- One call on a free mutex: it returns, with the slots of the build without `SFSM_MT`
and the mutex free; its events invoke the same states, each with the mutex free. -/
theorem exec_free (proc : σ → List (Request σ)) (k : Call σ) (m : MTContext σ)
    (h : m.mQueueMutex = false) :
    ∃ ev, m.exec proc k = some (ofContext (k.exec proc m.toContext).1 (m.trace ++ ev))
      ∧ ev.filterMap Event.invoked = (k.exec proc m.toContext).2
      ∧ ∀ s held, Event.invoke s held ∈ ev → held = false := by
  cases k with
  | SetState x b =>
    exact ⟨[Event.lock, Event.unlock], SetState_free m x b h, rfl, by simp⟩
  | FlushQueue =>
    exact ⟨[Event.lock, Event.unlock], FlushQueue_free m h, rfl, by simp⟩
  | Handle =>
    refine ⟨[Event.lock, Event.unlock] ++
      (match m.toContext.FlushQueue.mCurrent with
        | none => []
        | some s =>
          Event.invoke s false :: (proc s).flatMap (fun _ => [Event.lock, Event.unlock])),
      ?_, ?_, ?_⟩
    · simp only [exec, Call.exec]
      rw [Handle_free proc m h, List.append_assoc]
    · simp only [Call.exec]
      cases hcur : m.toContext.FlushQueue.mCurrent with
      | none => rw [Context.Handle_of_halted proc _ hcur]; rfl
      | some s =>
        rw [Context.Handle_of_active proc _ s hcur]
        simp [Event.invoked, guards_invoke_nothing]
    · intro s held hmem
      cases hcur : m.toContext.FlushQueue.mCurrent with
      | none => rw [hcur] at hmem; simp at hmem
      | some t =>
        rw [hcur] at hmem
        simp only [List.cons_append, List.nil_append, List.mem_cons] at hmem
        rcases hmem with hmem | hmem | hmem | hmem
        · exact absurd hmem (by simp)
        · exact absurd hmem (by simp)
        · cases hmem; rfl
        · exact absurd hmem (not_mem_guards _ s held)

/-- A sequence of calls on a free mutex: as `exec_free`, for the whole sequence. -/
theorem runCalls_free (proc : σ → List (Request σ)) (ks : List (Call σ)) :
    ∀ m : MTContext σ, m.mQueueMutex = false →
      ∃ ev, runCalls proc m ks
          = some (ofContext (m.toContext.runCalls proc ks).1 (m.trace ++ ev))
        ∧ ev.filterMap Event.invoked = (m.toContext.runCalls proc ks).2
        ∧ ∀ s held, Event.invoke s held ∈ ev → held = false := by
  induction ks with
  | nil =>
    intro m h
    refine ⟨[], ?_, rfl, by simp⟩
    simp only [runCalls, Context.runCalls, List.append_nil]
    rw [ofContext_toContext m h]
  | cons k ks ih =>
    intro m h
    obtain ⟨ev1, h1, h2, h3⟩ := exec_free proc k m h
    obtain ⟨ev2, g1, g2, g3⟩ := ih (ofContext (k.exec proc m.toContext).1 (m.trace ++ ev1)) rfl
    refine ⟨ev1 ++ ev2, ?_, ?_, ?_⟩
    · simp only [runCalls, h1]
      rw [g1, toContext_ofContext]
      simp [Context.runCalls, ofContext, List.append_assoc]
    · rw [List.filterMap_append, h2, g2, toContext_ofContext]
      rfl
    · intro s held hmem
      rcases List.mem_append.mp hmem with hm | hm
      · exact h3 s held hm
      · exact g3 s held hm

end MTContext

section Claims

variable {σ : Type}

/-- C12 (the build switch does not change the contract). For every context with its mutex
free and every sequence of `SetState`, `FlushQueue` and `Handle` calls made one after the
other, the requests of invoked states included: the `SFSM_MT` build returns from every
call (a lock attempt on the held mutex would yield `none`), ends with the same two slots
as the build without `SFSM_MT` and with the mutex free, has invoked the same states in the
same order, and has invoked each of them with the mutex free. -/
theorem mt_build_same_contract (proc : σ → List (Request σ)) (c : Context σ)
    (calls : List (Call σ)) :
    ∃ m, MTContext.runCalls proc (MTContext.ofContext c []) calls = some m
      ∧ m.mCurrent = (c.runCalls proc calls).1.mCurrent
      ∧ m.mQueuedNext = (c.runCalls proc calls).1.mQueuedNext
      ∧ m.mQueueMutex = false
      ∧ m.trace.filterMap Event.invoked = (c.runCalls proc calls).2
      ∧ ∀ s held, Event.invoke s held ∈ m.trace → held = false := by
  obtain ⟨ev, h1, h2, h3⟩ := MTContext.runCalls_free proc calls (MTContext.ofContext c []) rfl
  rw [MTContext.toContext_ofContext] at h1 h2
  refine ⟨_, h1, rfl, rfl, rfl, ?_, ?_⟩
  · simpa [MTContext.ofContext] using h2
  · intro s held hmem
    exact h3 s held (by simpa [MTContext.ofContext] using hmem)

/-- C14, the claim as stated fails. On the `SFSM_MT` build, `SetState(null, true)` on a
context running red with its mutex free locks and unlocks the mutex. -/
theorem immediate_SetState_locks_counterexample :
    (MTContext.ofContext (Context.init (some Light.RedLightState)) []).SetState none true
      = some ⟨none, none, false, [Event.lock, Event.unlock]⟩ := by
  decide

/-- C14 as amended. On the `SFSM_MT` build, for every context with its mutex free: every
`SetState(x, b)`, with `b` true or false, locks and unlocks the mutex once; `FlushQueue()`
locks and unlocks it once; the events of `Handle()` are the lock and unlock of its flush,
then, if a state is active after the flush, the invocation of that state with the mutex
free, then one lock and unlock for each request of that state. -/
theorem lock_coverage (proc : σ → List (Request σ)) (m : MTContext σ)
    (h : m.mQueueMutex = false) :
    (∀ x b, (m.SetState x b).map MTContext.trace
        = some (m.trace ++ [Event.lock, Event.unlock]))
    ∧ m.FlushQueue.map MTContext.trace = some (m.trace ++ [Event.lock, Event.unlock])
    ∧ (m.Handle proc).map MTContext.trace
        = some (m.trace ++ [Event.lock, Event.unlock] ++
            (match m.toContext.FlushQueue.mCurrent with
              | none => []
              | some s =>
                Event.invoke s false
                  :: (proc s).flatMap (fun _ => [Event.lock, Event.unlock]))) := by
  refine ⟨?_, ?_, ?_⟩
  · intro x b
    rw [MTContext.SetState_free m x b h]; rfl
  · rw [MTContext.FlushQueue_free m h]; rfl
  · rw [MTContext.Handle_free proc m h]; rfl

/-- C14 as amended, at the traffic light on the `SFSM_MT` build: an immediate request of
green locks and unlocks; a step of the context running red locks and unlocks for the
flush, invokes red with the mutex free, and locks and unlocks for the request of green. -/
theorem lock_coverage_witness :
    ((MTContext.ofContext (Context.init (some Light.RedLightState)) []).SetState
        (some Light.GreenLightState) true).map MTContext.trace
      = some [Event.lock, Event.unlock]
    ∧ ((MTContext.ofContext (Context.init (some Light.RedLightState)) []).Handle
        Light.Handle).map MTContext.trace
      = some [Event.lock, Event.unlock, Event.invoke Light.RedLightState false,
          Event.lock, Event.unlock] :=
  have h := lock_coverage Light.Handle
    (MTContext.ofContext (Context.init (some Light.RedLightState)) []) rfl
  ⟨h.1 (some Light.GreenLightState) true, h.2.2⟩

end Claims

end simplistic.fsm

/-! ## The parser of `examples/lexer.cpp` -/

namespace Lexer

/-- The driving loop does nothing on a context whose active slot is null. -/
theorem Context.run_of_halted (ctx : Context) (h : ctx.toContext.mCurrent = none) (fuel : Nat) :
    Context.run fuel ctx = (ctx, []) := by
  cases fuel with
  | zero => rfl
  | succ n => simp [Context.run, h]

/-- C16 (an error halts the example parser at once). For every `Lexer::Context`, whatever
its tokens and token index, in which a `Handle()` call invokes `ErrorState`: that call
invokes nothing else, and when it returns both slots are null and the tokens and the index
are as before; so the loop `while (mCurrent && !IsEndOfTokens())`, run from there with any
bound on its iterations, makes no further call. -/
theorem error_halts_at_once (ctx : Context) (h : State.ErrorState ∈ ctx.Handle.2) :
    ctx.Handle.2 = [State.ErrorState]
    ∧ ctx.Handle.1.toContext.mCurrent = none
    ∧ ctx.Handle.1.toContext.mQueuedNext = none
    ∧ ctx.Handle.1.mTokens = ctx.mTokens
    ∧ ctx.Handle.1.mCurrentTokenIndex = ctx.mCurrentTokenIndex
    ∧ ∀ fuel, Context.run fuel ctx.Handle.1 = (ctx.Handle.1, []) := by
  cases hcur : ctx.toContext.FlushQueue.mCurrent with
  | none =>
    simp [Context.Handle, hcur] at h
  | some s =>
    have hs : s = State.ErrorState := by
      simp [Context.Handle, hcur] at h
      exact h.symm
    subst hs
    have hH : ctx.Handle
        = (⟨⟨none, ctx.toContext.FlushQueue.mQueuedNext⟩, ctx.mTokens, ctx.mCurrentTokenIndex⟩,
            [State.ErrorState]) := by
      simp [Context.Handle, hcur, State.Handle, Context.SetState,
        simplistic.fsm.Context.SetState]
    have hq := simplistic.fsm.Context.FlushQueue_mQueuedNext ctx.toContext
    rw [hH]
    refine ⟨rfl, rfl, hq, rfl, rfl, ?_⟩
    intro fuel
    exact Context.run_of_halted _ rfl fuel

/-- C16 at the tokens `x =`: the first step runs `KeywordState`, which queues `ErrorState`;
the second step runs `ErrorState` and the loop stops although both tokens remain. -/
theorem error_halts_at_once_witness :
    State.ErrorState ∈
        (Context.init [("IDENTIFIER", "x"), ("OPERATOR", "=")]).Handle.1.Handle.2
    ∧ (Context.init [("IDENTIFIER", "x"), ("OPERATOR", "=")]).Handle.1.Handle.1.toContext.mCurrent
        = none
    ∧ (Context.init [("IDENTIFIER", "x"), ("OPERATOR", "=")]).Handle.1.Handle.1.IsEndOfTokens
        = false
    ∧ Context.run 5 (Context.init [("IDENTIFIER", "x"), ("OPERATOR", "=")]).Handle.1.Handle.1
        = ((Context.init [("IDENTIFIER", "x"), ("OPERATOR", "=")]).Handle.1.Handle.1, []) :=
  have h := error_halts_at_once (Context.init [("IDENTIFIER", "x"), ("OPERATOR", "=")]).Handle.1
    (by decide)
  ⟨by decide, h.2.1, by decide, h.2.2.2.2.2 5⟩

end Lexer

/-! ## The tokenizer of `examples/lexer.cpp` -/

namespace Tokenizer

theorem Context.SetState_deferred_eq (c : Context) (x : Option State) :
    c.SetState x false = ⟨⟨c.toContext.mCurrent, x⟩, c.mTokens, c.mInput, c.mPos⟩ := by
  simp [Context.SetState, simplistic.fsm.Context.SetState]

theorem Context.GetNextChar_of_lt (c : Context) (h : c.mPos < c.mInput.data.length) :
    c.GetNextChar
      = (c.mInput.data.getD c.mPos (Char.ofNat 0),
          ⟨c.toContext, c.mTokens, c.mInput, c.mPos + 1⟩) := by
  unfold Context.GetNextChar
  rw [if_pos h]

theorem Context.Finished_eq_false_iff (c : Context) :
    c.Finished = false ↔ c.mPos < c.mInput.data.length := by
  simp [Context.Finished]

/-- The part of `InitialState::Handle` after the read changes neither the active slot nor
the input nor the read position. -/
theorem State.dispatchChar_frame (ch : Char) (c : Context) :
    (State.dispatchChar ch c).toContext.mCurrent = c.toContext.mCurrent
    ∧ (State.dispatchChar ch c).mInput = c.mInput
    ∧ (State.dispatchChar ch c).mPos = c.mPos := by
  unfold State.dispatchChar
  split_ifs <;>
    simp [Context.SetState_deferred_eq, Context.EmitToken, State.OnFinishDetected,
      Context.Finalize]

theorem Context.budget_le (c : Context) :
    c.budget ≤ 2 * (c.mInput.data.length - c.mPos) := by
  unfold Context.budget
  split_ifs <;> omega

theorem State.Handle_Initial_of_lt (c : Context) (h : c.mPos < c.mInput.data.length) :
    State.InitialState.Handle c
      = State.dispatchChar (c.mInput.data.getD c.mPos (Char.ofNat 0))
          ⟨c.toContext, c.mTokens, c.mInput, c.mPos + 1⟩ := by
  have hF := (Context.Finished_eq_false_iff c).mpr h
  simp only [State.Handle, hF, Bool.false_eq_true, if_false]
  rw [Context.GetNextChar_of_lt c h]

theorem State.Handle_Token_of_lt (t : String) (c : Context)
    (h : c.mPos < c.mInput.data.length) :
    (State.TokenState t).Handle c
      = if isalnum (c.mInput.data.getD c.mPos (Char.ofNat 0)) then
          ⟨⟨c.toContext.mCurrent.map
                (fun _ => State.TokenState (t.push (c.mInput.data.getD c.mPos (Char.ofNat 0)))),
              some (State.TokenState (t.push (c.mInput.data.getD c.mPos (Char.ofNat 0))))⟩,
            c.mTokens, c.mInput, c.mPos + 1⟩
        else
          ⟨⟨c.toContext.mCurrent, some State.InitialState⟩,
            c.mTokens ++ [(if t ∈ keywords then "KEYWORD" else "IDENTIFIER", t)],
            c.mInput, c.mPos⟩ := by
  simp only [State.Handle]
  rw [Context.GetNextChar_of_lt c h]
  simp [Context.SetState_deferred_eq, Context.EmitToken, Context.RevertOneChar,
    Context.assignSelf]

theorem State.Handle_Number_of_lt (t : String) (c : Context)
    (h : c.mPos < c.mInput.data.length) :
    (State.NumberState t).Handle c
      = if isdigit (c.mInput.data.getD c.mPos (Char.ofNat 0)) then
          ⟨⟨c.toContext.mCurrent.map
                (fun _ => State.NumberState (t.push (c.mInput.data.getD c.mPos (Char.ofNat 0)))),
              some (State.NumberState (t.push (c.mInput.data.getD c.mPos (Char.ofNat 0))))⟩,
            c.mTokens, c.mInput, c.mPos + 1⟩
        else
          ⟨⟨c.toContext.mCurrent, some State.InitialState⟩,
            c.mTokens ++ [("NUMBER", t)], c.mInput, c.mPos⟩ := by
  simp only [State.Handle]
  rw [Context.GetNextChar_of_lt c h]
  simp [Context.SetState_deferred_eq, Context.EmitToken, Context.RevertOneChar,
    Context.assignSelf]

theorem Context.budget_of_next_Initial (cur : Option State) (toks : List (String × String))
    (inp : String) (pos : Nat) (h : pos < inp.data.length) :
    (Context.mk ⟨cur, some State.InitialState⟩ toks inp pos).budget
      = 2 * (inp.data.length - pos) - 1 := by
  have hF := (Context.Finished_eq_false_iff
    (Context.mk ⟨cur, some State.InitialState⟩ toks inp pos)).mpr h
  simp [Context.budget, hF, simplistic.fsm.Context.FlushQueue]

/-- One call of a state's `Handle` on a flushed context with input left. -/
theorem State.Handle_budget_flushed (s : State) (toks : List (String × String)) (inp : String)
    (pos : Nat) (h : pos < inp.data.length) :
    (s.Handle ⟨⟨some s, none⟩, toks, inp, pos⟩).toContext.mCurrent.isSome = true
    ∧ (s.Handle ⟨⟨some s, none⟩, toks, inp, pos⟩).mInput = inp
    ∧ (s.Handle ⟨⟨some s, none⟩, toks, inp, pos⟩).budget + 1
        ≤ 2 * (inp.data.length - pos) - (if s = State.InitialState then 1 else 0) := by
  cases s with
  | InitialState =>
    rw [State.Handle_Initial_of_lt _ h]
    obtain ⟨h1, h2, h3⟩ := State.dispatchChar_frame (inp.data.getD pos (Char.ofNat 0))
      ⟨⟨some State.InitialState, none⟩, toks, inp, pos + 1⟩
    refine ⟨by rw [h1]; rfl, h2, ?_⟩
    have hb := Context.budget_le (State.dispatchChar (inp.data.getD pos (Char.ofNat 0))
      ⟨⟨some State.InitialState, none⟩, toks, inp, pos + 1⟩)
    rw [h2, h3] at hb
    simp only [if_true] at hb ⊢
    omega
  | TokenState t =>
    rw [State.Handle_Token_of_lt t _ h]
    dsimp only
    by_cases hc : isalnum (inp.data.getD pos (Char.ofNat 0)) = true
    · rw [if_pos hc]
      refine ⟨rfl, rfl, ?_⟩
      have hb := Context.budget_le
        ⟨⟨some (State.TokenState (t.push (inp.data.getD pos (Char.ofNat 0)))),
          some (State.TokenState (t.push (inp.data.getD pos (Char.ofNat 0))))⟩,
          toks, inp, pos + 1⟩
      simp only [reduceCtorEq, if_false, Option.map_some'] at hb ⊢
      omega
    · rw [if_neg hc]
      refine ⟨rfl, rfl, ?_⟩
      rw [Context.budget_of_next_Initial _ _ _ _ h]
      simp only [reduceCtorEq, if_false]
      omega
  | NumberState t =>
    rw [State.Handle_Number_of_lt t _ h]
    dsimp only
    by_cases hc : isdigit (inp.data.getD pos (Char.ofNat 0)) = true
    · rw [if_pos hc]
      refine ⟨rfl, rfl, ?_⟩
      have hb := Context.budget_le
        ⟨⟨some (State.NumberState (t.push (inp.data.getD pos (Char.ofNat 0)))),
          some (State.NumberState (t.push (inp.data.getD pos (Char.ofNat 0))))⟩,
          toks, inp, pos + 1⟩
      simp only [reduceCtorEq, if_false, Option.map_some'] at hb ⊢
      omega
    · rw [if_neg hc]
      refine ⟨rfl, rfl, ?_⟩
      rw [Context.budget_of_next_Initial _ _ _ _ h]
      simp only [reduceCtorEq, if_false]
      omega

theorem Context.budget_pos (c : Context) (h : c.Finished = false) : 1 ≤ c.budget := by
  have hlt := (Context.Finished_eq_false_iff c).mp h
  unfold Context.budget
  rw [h]
  simp only [Bool.false_eq_true, if_false]
  split_ifs <;> omega

/-- One iteration of the loop, made on unfinished input with a state active: a state is
still active, the input is the same, and the bound has dropped. -/
theorem Context.Handle_budget (ctx : Context) (hF : ctx.Finished = false)
    (hJ : ctx.toContext.mCurrent.isSome = true) :
    ctx.Handle.toContext.mCurrent.isSome = true
    ∧ ctx.Handle.mInput = ctx.mInput
    ∧ ctx.Handle.budget + 1 ≤ ctx.budget := by
  have hlt := (Context.Finished_eq_false_iff ctx).mp hF
  obtain ⟨⟨cur, q⟩, toks, inp, pos⟩ := ctx
  have hlt' : pos < inp.data.length := hlt
  cases q with
  | none =>
    cases cur with
    | none => exact absurd hJ (by simp)
    | some s =>
      have hH : (Context.mk ⟨some s, none⟩ toks inp pos).Handle
          = s.Handle ⟨⟨some s, none⟩, toks, inp, pos⟩ := rfl
      have hB : (Context.mk ⟨some s, none⟩ toks inp pos).budget
          = 2 * (inp.data.length - pos) - (if s = State.InitialState then 1 else 0) := by
        simp [Context.budget, hF, simplistic.fsm.Context.FlushQueue]
      rw [hH, hB]
      exact State.Handle_budget_flushed s toks inp pos hlt'
  | some s =>
    have hH : (Context.mk ⟨cur, some s⟩ toks inp pos).Handle
        = s.Handle ⟨⟨some s, none⟩, toks, inp, pos⟩ := rfl
    have hB : (Context.mk ⟨cur, some s⟩ toks inp pos).budget
        = 2 * (inp.data.length - pos) - (if s = State.InitialState then 1 else 0) := by
      simp [Context.budget, hF, simplistic.fsm.Context.FlushQueue]
    rw [hH, hB]
    exact State.Handle_budget_flushed s toks inp pos hlt'

theorem Context.run_of_finished (ctx : Context) (h : ctx.Finished = true) (fuel : Nat) :
    Context.run fuel ctx = (ctx, 0) := by
  cases fuel with
  | zero => rfl
  | succ n => simp [Context.run, h]

theorem Context.run_succ_of_not_finished (ctx : Context) (h : ctx.Finished = false)
    (fuel : Nat) :
    Context.run (fuel + 1) ctx
      = ((Context.run fuel ctx.Handle).1, (Context.run fuel ctx.Handle).2 + 1) := by
  simp [Context.run, h]

/-- With at least as many iterations allowed as the bound says, the loop ends on finished
input within the bound, and allowing more changes nothing. -/
theorem Context.run_of_budget (k : Nat) :
    ∀ (fuel : Nat) (ctx : Context), ctx.toContext.mCurrent.isSome = true →
      ctx.budget ≤ k → k ≤ fuel →
      Context.run fuel ctx = Context.run k ctx
      ∧ (Context.run k ctx).1.Finished = true
      ∧ (Context.run k ctx).2 ≤ ctx.budget := by
  induction k with
  | zero =>
    intro fuel ctx _ hb _
    have hF : ctx.Finished = true := by
      cases h : ctx.Finished with
      | true => rfl
      | false => have := Context.budget_pos ctx h; omega
    rw [Context.run_of_finished ctx hF fuel, Context.run_of_finished ctx hF 0]
    exact ⟨rfl, hF, Nat.zero_le _⟩
  | succ k ih =>
    intro fuel ctx hJ hb hk
    cases hF : ctx.Finished with
    | true =>
      rw [Context.run_of_finished ctx hF fuel, Context.run_of_finished ctx hF (k + 1)]
      exact ⟨rfl, hF, Nat.zero_le _⟩
    | false =>
      obtain ⟨fuel', rfl⟩ : ∃ f, fuel = f + 1 := ⟨fuel - 1, by omega⟩
      obtain ⟨h1, _, h3⟩ := Context.Handle_budget ctx hF hJ
      obtain ⟨g1, g2, g3⟩ := ih fuel' ctx.Handle h1 (by omega) (by omega)
      rw [Context.run_succ_of_not_finished ctx hF fuel',
        Context.run_succ_of_not_finished ctx hF k, g1]
      exact ⟨rfl, g2, by simp only; omega⟩

/-- C18 (the tokenizer's driving loop terminates). For every input string, the loop
`while (!Finished()) Handle()` on the context built from it, allowed twice the input
length in iterations, ends with `Finished()` true after at most that many calls of
`Handle`; allowing more iterations gives the same result. -/
theorem tokenizer_loop_terminates (input : String) :
    (Context.run (2 * input.length) (Context.init input)).1.Finished = true
    ∧ (Context.run (2 * input.length) (Context.init input)).2 ≤ 2 * input.length
    ∧ ∀ fuel, 2 * input.length ≤ fuel →
        Context.run fuel (Context.init input)
          = Context.run (2 * input.length) (Context.init input) := by
  have hb : (Context.init input).budget ≤ 2 * input.length := by
    have := Context.budget_le (Context.init input)
    simpa [Context.init] using this
  have h0 := Context.run_of_budget (2 * input.length) (2 * input.length) (Context.init input)
    rfl hb (Nat.le_refl _)
  refine ⟨h0.2.1, Nat.le_trans h0.2.2 hb, ?_⟩
  intro fuel hfuel
  exact (Context.run_of_budget (2 * input.length) fuel (Context.init input) rfl hb hfuel).1

end Tokenizer

/-! ## The tokens of `examples/lexer.cpp` -/

namespace Tokenizer

theorem Context.ok_of_frame (c d : Context) (h1 : d.toContext = c.toContext)
    (h2 : d.mTokens = c.mTokens) (hc : c.ok) : d.ok := by
  unfold Context.ok at hc ⊢
  rw [h1, h2]
  exact hc

theorem Context.ok_GetNextChar (c : Context) (hc : c.ok) : c.GetNextChar.2.ok := by
  unfold Context.GetNextChar
  split_ifs
  · exact Context.ok_of_frame c _ rfl rfl hc
  · exact hc

theorem Context.ok_RevertOneChar (c : Context) (hc : c.ok) : c.RevertOneChar.ok := by
  unfold Context.RevertOneChar
  split_ifs
  · exact Context.ok_of_frame c _ rfl rfl hc
  · exact hc

theorem Context.ok_SetState_deferred (c : Context) (x : Option State) (hc : c.ok)
    (hx : ∀ s, x = some s → s.ok) : (c.SetState x false).ok := by
  rw [Context.SetState_deferred_eq]
  exact ⟨hc.1, fun s hs => hx s hs, hc.2.2⟩

theorem Context.ok_EmitToken (c : Context) (tokenType value : String) (hc : c.ok)
    (ht : tokenOk (tokenType, value)) : (c.EmitToken tokenType value).ok := by
  refine ⟨hc.1, hc.2.1, ?_⟩
  intro t hmem
  rcases List.mem_append.mp hmem with hm | hm
  · exact hc.2.2 t hm
  · rw [List.mem_singleton.mp hm]; exact ht

theorem Context.ok_assignSelf (c : Context) (self : State) (hc : c.ok) (hs : self.ok) :
    (c.assignSelf self).ok := by
  refine ⟨?_, hc.2.1, hc.2.2⟩
  intro s h
  have h' : c.toContext.mCurrent.map (fun _ => self) = some s := h
  cases hcur : c.toContext.mCurrent with
  | none => rw [hcur] at h'; exact absurd h' (by simp)
  | some u =>
    rw [hcur] at h'
    have : self = s := Option.some.inj h'
    rw [← this]; exact hs

theorem Context.ok_FlushQueue (c : Context) (hc : c.ok) : c.FlushQueue.ok := by
  obtain ⟨⟨cur, q⟩, toks, inp, pos⟩ := c
  cases q with
  | none => exact hc
  | some s =>
    refine ⟨?_, ?_, hc.2.2⟩
    · intro t ht
      exact hc.2.1 t ht
    · intro t ht
      exact absurd ht (by simp [Context.FlushQueue, simplistic.fsm.Context.FlushQueue])

theorem State.ok_OnFinishDetected (c : Context) (hc : c.ok) : (State.OnFinishDetected c).ok :=
  Context.ok_SetState_deferred _ none hc (fun s hs => absurd hs (by simp))

theorem ok_of_some_eq (s : State) (hs : s.ok) : ∀ u, some s = some u → u.ok := by
  intro u hu
  cases hu
  exact hs

theorem State.dispatchChar_ok (ch : Char) (c : Context) (hc : c.ok) :
    (State.dispatchChar ch c).ok := by
  unfold State.dispatchChar
  split_ifs with h1 h2 h3 h4 h5 h6
  · exact Context.ok_SetState_deferred _ _ hc
      (ok_of_some_eq _ ⟨ch, [], rfl, h1, by simp⟩)
  · exact Context.ok_SetState_deferred _ _ hc
      (ok_of_some_eq _ ⟨by simp [String.singleton], by
        intro d hd
        have : d = ch := by simpa [String.singleton] using hd
        rw [this]; exact h2⟩)
  · exact Context.ok_SetState_deferred _ _
      (Context.ok_EmitToken _ _ _ hc (Or.inl (by rw [h3]; rfl)))
      (ok_of_some_eq _ trivial)
  · exact Context.ok_SetState_deferred _ _
      (Context.ok_EmitToken _ _ _ hc (Or.inr (Or.inl (by rw [h4]; rfl))))
      (ok_of_some_eq _ trivial)
  · exact Context.ok_SetState_deferred _ _ hc (ok_of_some_eq _ trivial)
  · exact State.ok_OnFinishDetected c hc
  · exact hc

theorem isWord_push (t : String) (ch : Char) (ht : isWord t) (hc : isalnum ch = true) :
    isWord (t.push ch) := by
  obtain ⟨c, cs, h1, h2, h3⟩ := ht
  refine ⟨c, cs ++ [ch], by simp [String.push, h1], h2, ?_⟩
  intro d hd
  rcases List.mem_append.mp hd with hm | hm
  · exact h3 d hm
  · rw [List.mem_singleton.mp hm]; exact hc

theorem isNumber_push (t : String) (ch : Char) (ht : isNumber t) (hc : isdigit ch = true) :
    isNumber (t.push ch) := by
  refine ⟨by simp [String.push], ?_⟩
  intro d hd
  have hd' : d ∈ t.data ++ [ch] := by simpa [String.push] using hd
  rcases List.mem_append.mp hd' with hm | hm
  · exact ht.2 d hm
  · rw [List.mem_singleton.mp hm]; exact hc

theorem tokenOk_word (t : String) (ht : isWord t) :
    tokenOk (if t ∈ keywords then "KEYWORD" else "IDENTIFIER", t) := by
  refine Or.inr (Or.inr (Or.inr ?_))
  by_cases hk : t ∈ keywords
  · rw [if_pos hk]
    refine ⟨Or.inl rfl, ht, ?_⟩
    have hk' : t = "SET" ∨ t = "PRINT" := by simpa [keywords] using hk
    exact ⟨fun _ => hk', fun _ => rfl⟩
  · rw [if_neg hk]
    refine ⟨Or.inr rfl, ht, ?_⟩
    have hk' : ¬ (t = "SET" ∨ t = "PRINT") := by simpa [keywords] using hk
    exact ⟨fun h => absurd (show "IDENTIFIER" = "KEYWORD" from h) (by decide),
      fun h => absurd h hk'⟩

/-- A state's `Handle` keeps the invariant, on any context. -/
theorem State.Handle_keeps_ok (s : State) (c : Context) (hs : s.ok) (hc : c.ok) :
    (s.Handle c).ok := by
  cases s with
  | InitialState =>
    simp only [State.Handle]
    apply State.dispatchChar_ok
    apply Context.ok_GetNextChar
    split_ifs
    · exact State.ok_OnFinishDetected c hc
    · exact hc
  | TokenState t =>
    simp only [State.Handle]
    by_cases hch : isalnum c.GetNextChar.1 = true
    · rw [if_pos hch]
      exact Context.ok_SetState_deferred _ _
        (Context.ok_assignSelf _ _ (Context.ok_GetNextChar c hc) (isWord_push t _ hs hch))
        (ok_of_some_eq _ (isWord_push t _ hs hch))
    · rw [if_neg hch]
      exact Context.ok_SetState_deferred _ _
        (Context.ok_EmitToken _ _ _
          (Context.ok_RevertOneChar _ (Context.ok_GetNextChar c hc)) (tokenOk_word t hs))
        (ok_of_some_eq _ trivial)
  | NumberState t =>
    simp only [State.Handle]
    by_cases hch : isdigit c.GetNextChar.1 = true
    · rw [if_pos hch]
      exact Context.ok_SetState_deferred _ _
        (Context.ok_assignSelf _ _ (Context.ok_GetNextChar c hc) (isNumber_push t _ hs hch))
        (ok_of_some_eq _ (isNumber_push t _ hs hch))
    · rw [if_neg hch]
      exact Context.ok_SetState_deferred _ _
        (Context.ok_EmitToken _ _ _
          (Context.ok_RevertOneChar _ (Context.ok_GetNextChar c hc))
          (Or.inr (Or.inr (Or.inl ⟨rfl, hs⟩))))
        (ok_of_some_eq _ trivial)

theorem Context.Handle_ok (c : Context) (hc : c.ok) : c.Handle.ok := by
  have hf := Context.ok_FlushQueue c hc
  unfold Context.Handle
  cases hcur : c.FlushQueue.toContext.mCurrent with
  | none => exact hf
  | some s => exact State.Handle_keeps_ok s _ (hf.1 s hcur) hf

theorem Context.run_ok (fuel : Nat) : ∀ c : Context, c.ok → (Context.run fuel c).1.ok := by
  induction fuel with
  | zero => intro c hc; exact hc
  | succ n ih =>
    intro c hc
    cases hF : c.Finished with
    | true => rw [Context.run_of_finished c hF]; exact hc
    | false =>
      rw [Context.run_succ_of_not_finished c hF]
      exact ih _ (Context.Handle_ok c hc)

theorem Context.init_ok (input : String) : (Context.init input).ok := by
  refine ⟨?_, ?_, ?_⟩
  · intro s hs
    have : State.InitialState = s := Option.some.inj hs
    rw [← this]; trivial
  · intro s hs; exact absurd hs (by simp [Context.init, simplistic.fsm.Context.init])
  · intro t ht; exact absurd ht (by simp [Context.init])

/-- C19 (well-formed tokens). For every input string and every number of iterations of
the loop `while (!Finished()) Handle()` made so far, every token emitted is
`(OPERATOR, "=")`, or `(DELIMITER, ";")`, or a `NUMBER` whose value is one or more decimal
digits, or a `KEYWORD` or `IDENTIFIER` whose value is a letter followed by letters and
digits; and a token of the last kind is a `KEYWORD` exactly when its value is `SET` or
`PRINT`. -/
theorem tokens_well_formed (input : String) (fuel : Nat) (t : String × String)
    (ht : t ∈ (Context.run fuel (Context.init input)).1.mTokens) :
    t = ("OPERATOR", "=") ∨ t = ("DELIMITER", ";")
    ∨ (t.1 = "NUMBER" ∧ t.2.data ≠ [] ∧ ∀ c ∈ t.2.data, isdigit c = true)
    ∨ ((t.1 = "KEYWORD" ∨ t.1 = "IDENTIFIER")
        ∧ (∃ c cs, t.2.data = c :: cs ∧ isalpha c = true ∧ ∀ d ∈ cs, isalnum d = true)
        ∧ (t.1 = "KEYWORD" ↔ (t.2 = "SET" ∨ t.2 = "PRINT"))) :=
  (Context.run_ok fuel (Context.init input) (Context.init_ok input)).2.2 t ht

/-- C19 at the input `SET a1=42;`: the loop ends after 13 calls with five tokens, the first
of them the keyword `SET`. -/
theorem tokens_well_formed_witness :
    Context.run 20 (Context.init "SET a1=42;")
      = (⟨⟨some State.InitialState, some State.InitialState⟩,
          [("KEYWORD", "SET"), ("IDENTIFIER", "a1"), ("OPERATOR", "="), ("NUMBER", "42"),
            ("DELIMITER", ";")], "SET a1=42;", 10⟩, 13)
    ∧ (("KEYWORD", "SET") = ("OPERATOR", "=") ∨ ("KEYWORD", "SET") = ("DELIMITER", ";")
      ∨ ("KEYWORD" = "NUMBER" ∧ "SET".data ≠ [] ∧ ∀ c ∈ "SET".data, isdigit c = true)
      ∨ (("KEYWORD" = "KEYWORD" ∨ "KEYWORD" = "IDENTIFIER")
          ∧ (∃ c cs, "SET".data = c :: cs ∧ isalpha c = true ∧ ∀ d ∈ cs, isalnum d = true)
          ∧ ("KEYWORD" = "KEYWORD" ↔ ("SET" = "SET" ∨ "SET" = "PRINT")))) :=
  ⟨by decide, tokens_well_formed "SET a1=42;" 20 ("KEYWORD", "SET") (by decide)⟩

end Tokenizer
